import Mathlib

/-!
Shallow embedding of the upload scheduling and pipeline-progression engine of
`src/App.tsx` (a single React component).

The component runs on a single-threaded event loop.  We embed it as a
transition system: the `async` function `performUpload` is split into atomic
segments at its `await` points (the external metadata-provider call and the
six per-stage delays), and every state mutation is followed by the React
render/effect cycle, which we model explicitly:

* `performUpload` is produced by `useCallback` with dependency list
  `[isProcessing, isConnected, niche, tone, format]`, so its identity changes
  exactly when one of those values changes (here `niche`, `tone`, `format`
  are never mutated: the presentation-layer setters are outside the modelled
  event alphabet, so the identity tracks `(isProcessing, isConnected)`).
* The upload-timer effect (lines 150-168) has dependency list
  `[isAutoActive, isConnected, performUpload]`; it re-runs after any render
  in which one of those changed, clearing the old interval and, when
  `isAutoActive && isConnected`, calling `performUpload()`, `setTimeLeft(60)`
  and arming a fresh 60000 ms interval.
* The countdown effect (lines 171-184) has dependency list
  `[isAutoActive, isConnected]`; when inactive it clears the countdown
  interval and resets `timeLeft` to 60.

External collaborators not under `src/` (`./services/geminiService`'s
`fetchTrendAndMetadata` and the `./types` enums) are modelled at their
boundary: provider completion is the pair of events `metadataOk` /
`metadataFail`, and `VideoFormat` is an opaque enum of which `App.tsx` only
uses the literal `'shorts'`.

`Math.random()` values are passed in as rational event parameters in `[0,1)`;
the record id produced by `Math.random().toString(36).substring(7)` is
modelled as a fresh counter (`nextId`), which keeps ids unique, as distinct
`Math.random()` draws are for.  `toFixed` string formatting of the two metric
values is elided: the metrics keep their numeric values `ctr = 4 + 8*r1` and
`retention = 70 + 20*r2`.
-/

/-- Upload status enum from `./types` as used by `App.tsx`. -/
inductive Status where
  | pending
  | processing
  | uploaded
  | failed
deriving DecidableEq

/-- The seven pipeline stages (`ProcessingStage` in `./types`), in the fixed
order of `App.tsx`. -/
inductive Stage where
  | trend_scouting
  | strategy_mapping
  | script_generation
  | neural_rendering
  | voice_synthesis
  | qc_validation
  | publishing
deriving DecidableEq

/-- Modelled from the spec: `VideoFormat` is an enum declared in `./types`
(not under `src/`); `App.tsx` only ever uses the literal `'shorts'`. -/
inductive VideoFormat where
  | shorts
  | other
deriving DecidableEq

/-- Result of the external metadata provider (`GrowthData` in §6 of the
spec): title, description, trend topic and sources. -/
structure GrowthData where
  title : String
  description : String
  trendTopic : String
  sources : List String
deriving DecidableEq

/-- Channel info produced by `setupMockChannel` (lines 37-47). -/
structure ChannelInfo where
  name : String
  handle : String
  subscribers : String
  avatar : String
deriving DecidableEq

/-- An upload record (`UploadRecord` in `./types` as populated by
`App.tsx`).  `timestamp` (`new Date()` at creation) is modelled by the
creation index; `metrics` keeps the numeric values before `toFixed`
formatting. -/
structure UploadRecord where
  id : Nat
  timestamp : Nat
  title : String
  description : String
  status : Status
  stage : Stage
  thumbnail : String
  format : VideoFormat
  trendSource : Option String
  sources : Option (List String)
  metrics : Option (ℚ × ℚ)
deriving DecidableEq

/-- Program counter of the in-flight `performUpload` coroutine: waiting on
the provider call (line 103), or inside the stage loop waiting on the 2000 ms
delay after having displayed stage number `idx` of the six-element `stages`
array (line 126). -/
inductive RunPhase where
  | awaitMetadata
  | awaitDelay (g : GrowthData) (idx : Nat)
deriving DecidableEq

/-- The in-flight run: which record it owns and where its coroutine is
suspended. -/
structure RunState where
  recordId : Nat
  phase : RunPhase
deriving DecidableEq

/-- The component state of `App.tsx` (lines 17-32), plus the explicit pieces
of event-loop state the embedding needs: armed-interval flags for the two
`useRef` timer handles, the suspended `performUpload` coroutine, the fresh-id
counter, and the email of a pending `handleConnect` call suspended at its
1500 ms `setTimeout` (line 51). -/
structure AppState where
  isAutoActive : Bool
  uploads : List UploadRecord
  isProcessing : Bool
  niche : String
  tone : String
  format : VideoFormat
  timeLeft : Nat
  isConnected : Bool
  isConnecting : Bool
  showLoginModal : Bool
  channel : Option ChannelInfo
  uploadTimer : Bool
  countdownTimer : Bool
  run : Option RunState
  nextId : Nat
  pendingConnect : Option String
deriving DecidableEq

/-- The six-element `stages` array of `performUpload` (lines 105-112); the
record enters at `trend_scouting`, these are the remaining stages. -/
def stages : List Stage :=
  [.strategy_mapping, .script_generation, .neural_rendering,
   .voice_synthesis, .qc_validation, .publishing]

/-- Stage displayed by iteration `i` of the stage loop. -/
def stageAt (i : Nat) : Stage := stages.getD i .publishing

/-- Placeholder title of a freshly created record (line 92). -/
def initialTitle : String := "Detecting High-Velocity Signals..."

/-- Placeholder description of a freshly created record (line 93). -/
def initialDescription : String :=
  "ViralGrowth Engine is currently scanning global trends for peak virality..."

/-- Thumbnail set at creation (line 96), seeded with the record id. -/
def initialThumb (id : Nat) : String :=
  "https://images.unsplash.com/photo-1618005182384-a83a8bd57fbe?w=800&auto=format&fit=crop&q=60&seed="
    ++ toString id

/-- Thumbnail replacing the initial one on terminal success (line 138). -/
def finalThumb (id : Nat) : String :=
  "https://images.unsplash.com/photo-1620641788421-7a1c342ea42e?w=800&auto=format&fit=crop&q=60&seed="
    ++ toString id

/-- The record inserted at the start of a run (lines 89-98). -/
def initialRecord (id : Nat) (fmt : VideoFormat) : UploadRecord :=
  { id := id
  , timestamp := id
  , title := initialTitle
  , description := initialDescription
  , status := .pending
  , stage := .trend_scouting
  , thumbnail := initialThumb id
  , format := fmt
  , trendSource := none
  , sources := none
  , metrics := none }

/-- Record-store point update, the `uploads.map(u => u.id === newId ? ... : u)`
pattern used at every pipeline mutation (lines 114-125, 129-140, 143). -/
def updateById (l : List UploadRecord) (rid : Nat)
    (f : UploadRecord → UploadRecord) : List UploadRecord :=
  l.map fun u => if u.id = rid then f u else u

/-- One iteration of the stage loop (lines 114-125): overwrite title,
description, trend source and sources from the provider result, set status
`processing` and the iteration's stage. -/
def applyGrowth (l : List UploadRecord) (rid : Nat) (g : GrowthData)
    (st : Stage) : List UploadRecord :=
  updateById l rid fun u =>
    { u with
      title := g.title
    , description := g.description
    , status := .processing
    , stage := st
    , trendSource := some g.trendTopic
    , sources := some g.sources }

/-- The terminal-success update (lines 129-140): status `uploaded`, stage
`publishing`, synthetic metrics `ctr = 4 + 8*r1` and `retention = 70 + 20*r2`
(`(Math.random()*8+4)` and `(Math.random()*20+70)` before `toFixed`), and the
replaced thumbnail. -/
def finalizeRecord (l : List UploadRecord) (rid : Nat) (r1 r2 : ℚ) :
    List UploadRecord :=
  updateById l rid fun u =>
    { u with
      status := .uploaded
    , stage := .publishing
    , metrics := some (4 + 8 * r1, 70 + 20 * r2)
    , thumbnail := finalThumb rid }

/-- The catch-block update on provider failure (line 143): status `failed`,
every other field untouched. -/
def markFailed (l : List UploadRecord) (rid : Nat) : List UploadRecord :=
  updateById l rid fun u => { u with status := .failed }

/-- First part of `email.split('@')[0]` (line 38). -/
def emailName (email : String) : String := (email.splitOn "@").headD ""

/-- JS `s.charAt(0).toUpperCase() + s.slice(1)` (line 39). -/
def capitalizeJS (s : String) : String := (s.take 1).toUpper ++ s.drop 1

/-- The mock channel built by `setupMockChannel` (lines 37-45); `r` is the
`Math.random()` draw behind the subscriber count. -/
def mkChannel (email : String) (r : ℚ) : ChannelInfo :=
  let namePart := emailName email
  { name := capitalizeJS namePart ++ " Studio"
  , handle := "@" ++ namePart
  , subscribers := toString (⌊r * 500⌋ + 1) ++ "K"
  , avatar := "https://api.dicebear.com/7.x/avataaars/svg?seed=" ++ namePart }

/-- The synchronous prefix of `performUpload` (lines 83-103): the
single-flight guard, then `setIsProcessing(true)`, creation and prepend of
the new pending record, and suspension at the provider call. -/
def performUploadStart (s : AppState) : AppState :=
  if s.isProcessing || !s.isConnected then s
  else
    { s with
      isProcessing := true
    , uploads := initialRecord s.nextId s.format :: s.uploads
    , run := some ⟨s.nextId, .awaitMetadata⟩
    , nextId := s.nextId + 1 }

/-- Dependency triple of the upload-timer effect: `isAutoActive`,
`isConnected`, and the identity of `performUpload`, which tracks
`isProcessing` (its other `useCallback` dependencies are constant here). -/
def uDeps (s : AppState) : Bool × Bool × Bool :=
  (s.isAutoActive, s.isConnected, s.isProcessing)

/-- Dependency pair of the countdown effect: `isAutoActive`, `isConnected`. -/
def cDeps (s : AppState) : Bool × Bool :=
  (s.isAutoActive, s.isConnected)

/-- Body of the upload-timer effect (lines 150-168): when active, call
`performUpload()`, reset the countdown to 60 and arm the 60000 ms interval;
otherwise clear the interval. -/
def uploadEffect (s : AppState) : AppState :=
  if s.isAutoActive && s.isConnected then
    { performUploadStart s with timeLeft := 60, uploadTimer := true }
  else
    { s with uploadTimer := false }

/-- Body of the countdown effect (lines 171-184): when active, arm the
1000 ms interval; otherwise clear it and reset `timeLeft` to 60. -/
def countdownEffect (s : AppState) : AppState :=
  if s.isAutoActive && s.isConnected then
    { s with countdownTimer := true }
  else
    { s with countdownTimer := false, timeLeft := 60 }

/-- React render/effect cycle after an event handler has turned state `pre`
into state `post`: each effect re-runs when its dependency list changed since
it last ran.  The upload-timer effect can change its own `isProcessing`
dependency (by starting a run), which triggers one more re-run; that second
run leaves the dependencies fixed (the guard sees `isProcessing = true`), so
two applications reach the fixpoint.  The countdown effect's dependencies are
never changed by the upload-timer effect. -/
def afterRender (pre post : AppState) : AppState :=
  let p1 := if uDeps post = uDeps pre then post else uploadEffect post
  let p2 := if uDeps p1 = uDeps post then p1 else uploadEffect p1
  if cDeps post = cDeps pre then p2 else countdownEffect p2

/-- The catch/finally exit path of a failed run (lines 141-146): the catch
block marks the record failed (stage and every other field untouched) and
the finally block releases the single-flight guard. -/
def failPath (s : AppState) (rid : Nat) : AppState :=
  { s with uploads := markFailed s.uploads rid, isProcessing := false, run := none }

/-- The events of the single logical timeline: user interactions, timer
expirations and completions of the two external awaits. -/
inductive Event where
  | openLogin
  | closeLogin
  | connectStart (email : String)
  | connectResolve (r : ℚ)
  | disconnect
  | toggleAuto
  | manualTrigger
  | periodicFire
  | countdownTick
  | metadataOk (g : GrowthData)
  | metadataFail
  | delayElapsed (r1 r2 : ℚ)

/-- Side conditions on event payloads: `Math.random()` draws lie in `[0,1)`. -/
def Event.valid : Event → Prop
  | .connectResolve r => 0 ≤ r ∧ r < 1
  | .delayElapsed r1 r2 => 0 ≤ r1 ∧ r1 < 1 ∧ 0 ≤ r2 ∧ r2 < 1
  | _ => True

/-- One atomic step of the event loop: the handler (or coroutine segment)
runs to its next suspension point, then the render/effect cycle stabilizes. -/
def step (s : AppState) : Event → AppState
  | .openLogin => afterRender s { s with showLoginModal := true }
  | .closeLogin => afterRender s { s with showLoginModal := false }
  | .connectStart email =>
      if s.isConnecting then s
      else afterRender s { s with isConnecting := true, pendingConnect := some email }
  | .connectResolve r =>
      match s.pendingConnect with
      | none => s
      | some email =>
          afterRender s
            { s with
              channel := some (mkChannel email r)
            , isConnected := true
            , isConnecting := false
            , showLoginModal := false
            , pendingConnect := none }
  | .disconnect =>
      afterRender s { s with isAutoActive := false, isConnected := false, channel := none }
  | .toggleAuto =>
      afterRender s { s with isAutoActive := !s.isAutoActive }
  | .manualTrigger => afterRender s (performUploadStart s)
  | .periodicFire =>
      if s.uploadTimer then
        afterRender s { performUploadStart s with timeLeft := 60 }
      else s
  | .countdownTick =>
      if s.countdownTimer then
        afterRender s
          { s with timeLeft := if 1 < s.timeLeft then s.timeLeft - 1 else 60 }
      else s
  | .metadataOk g =>
      match s.run with
      | some rs =>
          match rs.phase with
          | .awaitMetadata =>
              afterRender s
                { s with
                  uploads := applyGrowth s.uploads rs.recordId g (stageAt 0)
                , run := some ⟨rs.recordId, .awaitDelay g 0⟩ }
          | .awaitDelay _ _ => s
      | none => s
  | .metadataFail =>
      match s.run with
      | some rs =>
          match rs.phase with
          | .awaitMetadata => afterRender s (failPath s rs.recordId)
          | .awaitDelay _ _ => s
      | none => s
  | .delayElapsed r1 r2 =>
      match s.run with
      | some rs =>
          match rs.phase with
          | .awaitMetadata => s
          | .awaitDelay g idx =>
              if idx + 1 < 6 then
                afterRender s
                  { s with
                    uploads := applyGrowth s.uploads rs.recordId g (stageAt (idx + 1))
                  , run := some ⟨rs.recordId, .awaitDelay g (idx + 1)⟩ }
              else
                afterRender s
                  { s with
                    uploads := finalizeRecord s.uploads rs.recordId r1 r2
                  , isProcessing := false
                  , run := none }
      | none => s

/-- Initial component state (the `useState` initializers, lines 17-29), with
both effects already stabilized on mount. -/
def initState : AppState :=
  { isAutoActive := false
  , uploads := []
  , isProcessing := false
  , niche := "AI Technology"
  , tone := "energetic"
  , format := .shorts
  , timeLeft := 60
  , isConnected := false
  , isConnecting := false
  , showLoginModal := false
  , channel := none
  , uploadTimer := false
  , countdownTimer := false
  , run := none
  , nextId := 0
  , pendingConnect := none }

/-- Reachable states of the embedded component. -/
inductive Reachable : AppState → Prop where
  | init : Reachable initState
  | step {s : AppState} {e : Event} :
      Reachable s → e.valid → Reachable (step s e)

/-! ## Invariants -/

/-- A record in a terminal state (§ Glossary): no further transitions. -/
def recTerminal (u : UploadRecord) : Prop :=
  u.status = .uploaded ∨ u.status = .failed

/-- Per-record coherence: pending and failed records sit at
`trend_scouting`; uploaded records sit at `publishing` with metrics. -/
def recordInv (u : UploadRecord) : Prop :=
  (u.status = .pending → u.stage = .trend_scouting)
  ∧ (u.status = .failed → u.stage = .trend_scouting)
  ∧ (u.status = .uploaded → u.stage = .publishing ∧ u.metrics.isSome = true)

/-- What the active record looks like at each coroutine suspension point. -/
def phaseInv : RunPhase → UploadRecord → Prop
  | .awaitMetadata, u => u.status = .pending ∧ u.stage = .trend_scouting
  | .awaitDelay g idx, u =>
      idx < 6 ∧ u.status = .processing ∧ u.stage = stageAt idx
      ∧ u.title = g.title ∧ u.description = g.description
      ∧ u.trendSource = some g.trendTopic ∧ u.sources = some g.sources

/-- Invariant of the record store and single-flight guard. -/
structure StoreInv (s : AppState) : Prop where
  ids : s.uploads.map (·.id) = (List.range s.nextId).reverse
  run_none : s.run = none →
    s.isProcessing = false ∧ ∀ u ∈ s.uploads, recTerminal u
  run_some : ∀ rs, s.run = some rs →
    s.isProcessing = true ∧ rs.recordId + 1 = s.nextId ∧
    ∃ u tl, s.uploads = u :: tl ∧ u.id = rs.recordId ∧ phaseInv rs.phase u
      ∧ ∀ v ∈ tl, recTerminal v
  recs : ∀ u ∈ s.uploads, recordInv u

/-- Invariant of the timers and the countdown clock. -/
structure ClockInv (s : AppState) : Prop where
  uT : s.uploadTimer = (s.isAutoActive && s.isConnected)
  cT : s.countdownTimer = (s.isAutoActive && s.isConnected)
  tl1 : 1 ≤ s.timeLeft
  tl60 : s.timeLeft ≤ 60
  idle : (s.isAutoActive && s.isConnected) = false → s.timeLeft = 60

/-- The full reachability invariant. -/
structure SysInv (s : AppState) : Prop where
  store : StoreInv s
  clock : ClockInv s

theorem updateById_cons (u : UploadRecord) (l : List UploadRecord) (rid : Nat)
    (f : UploadRecord → UploadRecord) :
    updateById (u :: l) rid f
      = (if u.id = rid then f u else u) :: updateById l rid f := rfl

theorem updateById_map_id (l : List UploadRecord) (rid : Nat)
    (f : UploadRecord → UploadRecord) (hf : ∀ u, (f u).id = u.id) :
    (updateById l rid f).map (·.id) = l.map (·.id) := by
  induction l with
  | nil => rfl
  | cons u l ih =>
      simp only [updateById_cons, List.map_cons, ih]
      by_cases h : u.id = rid
      · simp [h, hf]
      · simp [h]

theorem updateById_of_forall_ne (l : List UploadRecord) (rid : Nat)
    (f : UploadRecord → UploadRecord) (h : ∀ u ∈ l, u.id ≠ rid) :
    updateById l rid f = l := by
  induction l with
  | nil => rfl
  | cons u l ih =>
      rw [updateById_cons, if_neg (h u (by simp))]
      rw [ih fun v hv => h v (by simp [hv])]

theorem mem_updateById_of_ne (l : List UploadRecord) (rid : Nat)
    (f : UploadRecord → UploadRecord) (u : UploadRecord)
    (hu : u ∈ l) (hne : u.id ≠ rid) : u ∈ updateById l rid f := by
  have : (if u.id = rid then f u else u) ∈ updateById l rid f :=
    List.mem_map_of_mem _ hu
  rwa [if_neg hne] at this

theorem length_updateById (l : List UploadRecord) (rid : Nat)
    (f : UploadRecord → UploadRecord) :
    (updateById l rid f).length = l.length := by
  simp [updateById]

theorem id_lt_of_map_id_range (l : List UploadRecord) (k : Nat)
    (h : l.map (·.id) = (List.range k).reverse) :
    ∀ v ∈ l, v.id < k := by
  intro v hv
  have : v.id ∈ l.map (·.id) := List.mem_map_of_mem _ hv
  rw [h, List.mem_reverse, List.mem_range] at this
  exact this

/-- The store invariant only reads four fields. -/
theorem StoreInv.sameStoreFields {s t : AppState}
    (h : StoreInv s)
    (h1 : t.uploads = s.uploads) (h2 : t.run = s.run)
    (h3 : t.isProcessing = s.isProcessing) (h4 : t.nextId = s.nextId) :
    StoreInv t := by
  refine ⟨?_, ?_, ?_, ?_⟩
  · rw [h1, h4]; exact h.ids
  · rw [h1, h2, h3]; exact h.run_none
  · intro rs hrs
    rw [h2] at hrs
    obtain ⟨hp, hid, u, tl, hu⟩ := h.run_some rs hrs
    exact ⟨by rw [h3]; exact hp, by rw [h4]; exact hid, u, tl, by rw [h1]; exact hu.1, hu.2⟩
  · rw [h1]; exact h.recs

/-! ## Render/effect cycle analysis -/

theorem performUploadStart_isAutoActive (s : AppState) :
    (performUploadStart s).isAutoActive = s.isAutoActive := by
  unfold performUploadStart; split <;> rfl

theorem performUploadStart_isConnected (s : AppState) :
    (performUploadStart s).isConnected = s.isConnected := by
  unfold performUploadStart; split <;> rfl

theorem performUploadStart_uploadTimer (s : AppState) :
    (performUploadStart s).uploadTimer = s.uploadTimer := by
  unfold performUploadStart; split <;> rfl

theorem performUploadStart_countdownTimer (s : AppState) :
    (performUploadStart s).countdownTimer = s.countdownTimer := by
  unfold performUploadStart; split <;> rfl

theorem performUploadStart_timeLeft (s : AppState) :
    (performUploadStart s).timeLeft = s.timeLeft := by
  unfold performUploadStart; split <;> rfl

theorem performUploadStart_isConnecting (s : AppState) :
    (performUploadStart s).isConnecting = s.isConnecting := by
  unfold performUploadStart; split <;> rfl

theorem performUploadStart_showLoginModal (s : AppState) :
    (performUploadStart s).showLoginModal = s.showLoginModal := by
  unfold performUploadStart; split <;> rfl

theorem performUploadStart_channel (s : AppState) :
    (performUploadStart s).channel = s.channel := by
  unfold performUploadStart; split <;> rfl

theorem performUploadStart_pendingConnect (s : AppState) :
    (performUploadStart s).pendingConnect = s.pendingConnect := by
  unfold performUploadStart; split <;> rfl

theorem performUploadStart_of_busy {s : AppState} (h : s.isProcessing = true) :
    performUploadStart s = s := by
  unfold performUploadStart; rw [if_pos]; rw [h]; rfl

theorem performUploadStart_of_disconnected {s : AppState} (h : s.isConnected = false) :
    performUploadStart s = s := by
  unfold performUploadStart; rw [if_pos]; rw [h]; simp

theorem cDeps_eq_of_uDeps_eq {s t : AppState} (h : uDeps s = uDeps t) :
    cDeps s = cDeps t := by
  have h1 : s.isAutoActive = t.isAutoActive := congrArg Prod.fst h
  have h2 : s.isConnected = t.isConnected := congrArg (fun p => p.2.1) h
  simp [cDeps, h1, h2]

/-- When no effect dependency changed, the render/effect cycle is a no-op. -/
theorem afterRender_of_uDeps_eq {pre post : AppState} (h : uDeps post = uDeps pre) :
    afterRender pre post = post := by
  unfold afterRender
  simp [h, cDeps_eq_of_uDeps_eq h]

/-- Render/effect cycle after a handler that acquired the busy guard
(`isProcessing` went false to true, gate flags untouched): the upload-timer
effect re-runs; its `performUpload()` call is blocked by the guard, so it
only resets the countdown and re-arms (or clears) the interval. -/
theorem afterRender_runStart {pre post : AppState}
    (hc : cDeps post = cDeps pre)
    (hpre : pre.isProcessing = false) (hpost : post.isProcessing = true) :
    afterRender pre post =
      if post.isAutoActive && post.isConnected then
        { post with timeLeft := 60, uploadTimer := true }
      else { post with uploadTimer := false } := by
  have hud : ¬(uDeps post = uDeps pre) := by
    simp [uDeps, hpre, hpost, Prod.ext_iff]
  unfold afterRender
  rw [if_neg hud, if_pos hc]
  by_cases hA : (post.isAutoActive && post.isConnected) = true
  · have hp1 : uploadEffect post = { post with timeLeft := 60, uploadTimer := true } := by
      unfold uploadEffect
      rw [if_pos hA, performUploadStart_of_busy hpost]
    rw [hp1, if_pos (by rfl), if_pos hA]
  · have hp1 : uploadEffect post = { post with uploadTimer := false } := by
      unfold uploadEffect; rw [if_neg hA]
    rw [hp1, if_pos (by rfl), if_neg hA]

/-- Render/effect cycle after a handler that released the busy guard (a run
reached its `finally`; gate flags untouched): the upload-timer effect
re-runs, and when auto-mode is active and connected its `performUpload()`
call immediately starts a fresh run. -/
theorem afterRender_runEnd {pre post : AppState}
    (hc : cDeps post = cDeps pre)
    (hpre : pre.isProcessing = true) (hpost : post.isProcessing = false) :
    afterRender pre post =
      if post.isAutoActive && post.isConnected then
        { performUploadStart post with timeLeft := 60, uploadTimer := true }
      else { post with uploadTimer := false } := by
  have hud : ¬(uDeps post = uDeps pre) := by
    simp [uDeps, hpre, hpost, Prod.ext_iff]
  unfold afterRender
  rw [if_neg hud, if_pos hc]
  by_cases hA : (post.isAutoActive && post.isConnected) = true
  · rw [if_pos hA]
    have hp1eq : uploadEffect post
        = { performUploadStart post with timeLeft := 60, uploadTimer := true } := by
      unfold uploadEffect; rw [if_pos hA]
    rw [hp1eq]
    by_cases hfired : (performUploadStart post).isProcessing = true
    · rw [if_neg (by
        simp [uDeps, performUploadStart_isAutoActive, performUploadStart_isConnected,
          hfired, hpost, Prod.ext_iff])]
      have hA1 : (({ performUploadStart post with
          timeLeft := 60, uploadTimer := true } : AppState).isAutoActive
          && ({ performUploadStart post with
          timeLeft := 60, uploadTimer := true } : AppState).isConnected) = true := by
        simpa [performUploadStart_isAutoActive, performUploadStart_isConnected] using hA
      have hbusy1 : ({ performUploadStart post with
          timeLeft := 60, uploadTimer := true } : AppState).isProcessing = true := hfired
      unfold uploadEffect
      rw [if_pos hA1, performUploadStart_of_busy hbusy1]
    · have hsame : performUploadStart post = post := by
        unfold performUploadStart at hfired ⊢
        split at hfired
        · rename_i hg; rw [if_pos hg]
        · simp at hfired
      rw [hsame, if_pos (by rfl)]
  · rw [if_neg hA]
    have hp1 : uploadEffect post = { post with uploadTimer := false } := by
      unfold uploadEffect; rw [if_neg hA]
    rw [hp1, if_pos (by rfl)]

/-- Render/effect cycle after a handler that changed the gate flags
(`isAutoActive`/`isConnected`): both effects re-run.  When the new state is
active the upload-timer effect fires `performUpload()` (which starts a run
unless the guard blocks it), resets the countdown and arms both intervals;
otherwise both intervals are cleared and the countdown resets to 60. -/
theorem afterRender_gate {pre post : AppState}
    (hcd : ¬(cDeps post = cDeps pre)) :
    afterRender pre post =
      if post.isAutoActive && post.isConnected then
        { performUploadStart post with
            timeLeft := 60, uploadTimer := true, countdownTimer := true }
      else { post with uploadTimer := false, countdownTimer := false, timeLeft := 60 } := by
  have hud : ¬(uDeps post = uDeps pre) := fun h => hcd (cDeps_eq_of_uDeps_eq h)
  unfold afterRender
  rw [if_neg hud, if_neg hcd]
  by_cases hA : (post.isAutoActive && post.isConnected) = true
  · rw [if_pos hA]
    have hp1eq : uploadEffect post
        = { performUploadStart post with timeLeft := 60, uploadTimer := true } := by
      unfold uploadEffect; rw [if_pos hA]
    rw [hp1eq]
    by_cases hbusy : post.isProcessing = true
    · rw [performUploadStart_of_busy hbusy, if_pos (by rfl)]
      unfold countdownEffect
      rw [if_pos hA]
    · have hconn : post.isConnected = true := by
        cases h1 : post.isConnected
        · rw [h1, Bool.and_false] at hA; exact absurd hA (by simp)
        · rfl
      have hfired : (performUploadStart post).isProcessing = true := by
        unfold performUploadStart
        rw [if_neg (by simp [hbusy, hconn])]
      rw [if_neg (by
        simp [uDeps, performUploadStart_isAutoActive, performUploadStart_isConnected,
          hfired, hbusy, Prod.ext_iff])]
      have hA1 : (({ performUploadStart post with
          timeLeft := 60, uploadTimer := true } : AppState).isAutoActive
          && ({ performUploadStart post with
          timeLeft := 60, uploadTimer := true } : AppState).isConnected) = true := by
        simpa [performUploadStart_isAutoActive, performUploadStart_isConnected] using hA
      have hbusy1 : ({ performUploadStart post with
          timeLeft := 60, uploadTimer := true } : AppState).isProcessing = true := hfired
      unfold uploadEffect
      rw [if_pos hA1, performUploadStart_of_busy hbusy1]
      unfold countdownEffect
      rw [if_pos (by
        simpa [performUploadStart_isAutoActive, performUploadStart_isConnected] using hA)]
  · rw [if_neg hA]
    have hp1 : uploadEffect post = { post with uploadTimer := false } := by
      unfold uploadEffect; rw [if_neg hA]
    rw [hp1, if_pos (by rfl)]
    unfold countdownEffect
    rw [if_neg (by simpa using hA)]

/-! ## Store invariant preservation -/

theorem StoreInv.startUpload {s : AppState} (h : StoreInv s) :
    StoreInv (performUploadStart s) := by
  unfold performUploadStart
  split
  · exact h
  · rename_i hg
    have hbusy : s.isProcessing = false := by
      cases hp : s.isProcessing
      · rfl
      · rw [hp] at hg; simp at hg
    have hrun : s.run = none := by
      cases hr : s.run with
      | none => rfl
      | some rs =>
          have := (h.run_some rs hr).1
          rw [hbusy] at this; exact absurd this (by simp)
    obtain ⟨-, hterm⟩ := h.run_none hrun
    refine ⟨?_, ?_, ?_, ?_⟩
    · show (initialRecord s.nextId s.format).id :: s.uploads.map (·.id)
        = (List.range (s.nextId + 1)).reverse
      rw [List.range_succ, List.reverse_append, h.ids]
      rfl
    · intro hn; exact absurd hn (by simp)
    · intro rs hrs
      have hrs' : rs = ⟨s.nextId, .awaitMetadata⟩ := by
        simpa using hrs.symm
      subst hrs'
      refine ⟨rfl, rfl, initialRecord s.nextId s.format, s.uploads, rfl, rfl, ?_, hterm⟩
      exact ⟨rfl, rfl⟩
    · intro u hu
      rcases List.mem_cons.mp hu with h1 | h2
      · subst h1
        exact ⟨fun _ => rfl, fun h => by simp [initialRecord] at h,
          fun h => by simp [initialRecord] at h⟩
      · exact h.recs u h2

theorem StoreInv.effectUpload {s : AppState} (h : StoreInv s) :
    StoreInv (uploadEffect s) := by
  unfold uploadEffect
  split
  · exact h.startUpload.sameStoreFields rfl rfl rfl rfl
  · exact h.sameStoreFields rfl rfl rfl rfl

theorem StoreInv.effectCountdown {s : AppState} (h : StoreInv s) :
    StoreInv (countdownEffect s) := by
  unfold countdownEffect
  split
  · exact h.sameStoreFields rfl rfl rfl rfl
  · exact h.sameStoreFields rfl rfl rfl rfl

theorem storeInv_ite {c : Prop} [Decidable c] {a b : AppState}
    (ha : StoreInv a) (hb : StoreInv b) : StoreInv (if c then a else b) := by
  split
  · exact ha
  · exact hb

theorem StoreInv.render {pre post : AppState} (h : StoreInv post) :
    StoreInv (afterRender pre post) := by
  unfold afterRender
  dsimp only
  have hp1 : StoreInv (if uDeps post = uDeps pre then post else uploadEffect post) :=
    storeInv_ite h h.effectUpload
  have hp2 : StoreInv
      (if uDeps (if uDeps post = uDeps pre then post else uploadEffect post) = uDeps post
      then (if uDeps post = uDeps pre then post else uploadEffect post)
      else uploadEffect (if uDeps post = uDeps pre then post else uploadEffect post)) :=
    storeInv_ite hp1 hp1.effectUpload
  exact storeInv_ite hp2 hp2.effectCountdown

/-! ## Clock invariant preservation -/

theorem ClockInv.sameClockFields {s t : AppState} (h : ClockInv s)
    (h1 : t.uploadTimer = s.uploadTimer) (h2 : t.countdownTimer = s.countdownTimer)
    (h3 : t.timeLeft = s.timeLeft) (h4 : t.isAutoActive = s.isAutoActive)
    (h5 : t.isConnected = s.isConnected) : ClockInv t := by
  refine ⟨?_, ?_, ?_, ?_, ?_⟩
  · rw [h1, h4, h5]; exact h.uT
  · rw [h2, h4, h5]; exact h.cT
  · rw [h3]; exact h.tl1
  · rw [h3]; exact h.tl60
  · rw [h4, h5, h3]; exact h.idle

/-- Clock invariant of the state produced by a render cycle that re-ran the
upload-timer effect with the guard held (`afterRender_runStart` shape). -/
theorem clockInv_runStartForm {pre post : AppState} (h : ClockInv pre)
    (hcd : cDeps post = cDeps pre)
    (h1 : post.uploadTimer = pre.uploadTimer)
    (h2 : post.countdownTimer = pre.countdownTimer)
    (h3 : post.timeLeft = pre.timeLeft ∨ post.timeLeft = 60) :
    ClockInv (if post.isAutoActive && post.isConnected then
        { post with timeLeft := 60, uploadTimer := true }
      else { post with uploadTimer := false }) := by
  have ha : post.isAutoActive = pre.isAutoActive := congrArg Prod.fst hcd
  have hb : post.isConnected = pre.isConnected := congrArg Prod.snd hcd
  split
  · rename_i hA
    refine ⟨by rw [hA], ?_, by simp, by simp, by simp [hA]⟩
    · show post.countdownTimer = (post.isAutoActive && post.isConnected)
      rw [h2, ha, hb]; exact h.cT
  · rename_i hA
    have hA' : (pre.isAutoActive && pre.isConnected) = false := by
      rw [← ha, ← hb]; exact Bool.not_eq_true _ ▸ (by simpa using hA)
    have htl : post.timeLeft = 60 := by
      rcases h3 with h3 | h3
      · rw [h3]; exact h.idle hA'
      · exact h3
    refine ⟨by simp [ha, hb, hA'], ?_, ?_, ?_, ?_⟩
    · show post.countdownTimer = (post.isAutoActive && post.isConnected)
      rw [h2, ha, hb]; exact h.cT
    · show 1 ≤ post.timeLeft
      rw [htl]; omega
    · show post.timeLeft ≤ 60
      rw [htl]
    · intro _; exact htl

/-- Clock invariant of the state produced by a render cycle that re-ran the
upload-timer effect after the guard was released (`afterRender_runEnd`
shape): when active a fresh run has started. -/
theorem clockInv_runEndForm {pre post : AppState} (h : ClockInv pre)
    (hcd : cDeps post = cDeps pre)
    (h1 : post.uploadTimer = pre.uploadTimer)
    (h2 : post.countdownTimer = pre.countdownTimer)
    (h3 : post.timeLeft = pre.timeLeft ∨ post.timeLeft = 60) :
    ClockInv (if post.isAutoActive && post.isConnected then
        { performUploadStart post with timeLeft := 60, uploadTimer := true }
      else { post with uploadTimer := false }) := by
  have ha : post.isAutoActive = pre.isAutoActive := congrArg Prod.fst hcd
  have hb : post.isConnected = pre.isConnected := congrArg Prod.snd hcd
  split
  · rename_i hA
    refine ⟨?_, ?_, by simp, by simp, ?_⟩
    · show true = ((performUploadStart post).isAutoActive
        && (performUploadStart post).isConnected)
      rw [performUploadStart_isAutoActive, performUploadStart_isConnected, hA]
    · show (performUploadStart post).countdownTimer
        = ((performUploadStart post).isAutoActive && (performUploadStart post).isConnected)
      rw [performUploadStart_countdownTimer, performUploadStart_isAutoActive,
        performUploadStart_isConnected, hA, h2, h.cT, ← ha, ← hb]
      exact hA
    · show ((performUploadStart post).isAutoActive
        && (performUploadStart post).isConnected) = false → (60 : Nat) = 60
      intro _; rfl
  · rename_i hA
    have hA' : (pre.isAutoActive && pre.isConnected) = false := by
      rw [← ha, ← hb]; exact Bool.not_eq_true _ ▸ (by simpa using hA)
    have htl : post.timeLeft = 60 := by
      rcases h3 with h3 | h3
      · rw [h3]; exact h.idle hA'
      · exact h3
    refine ⟨by simp [ha, hb, hA'], ?_, ?_, ?_, ?_⟩
    · show post.countdownTimer = (post.isAutoActive && post.isConnected)
      rw [h2, ha, hb]; exact h.cT
    · show 1 ≤ post.timeLeft
      rw [htl]; omega
    · show post.timeLeft ≤ 60
      rw [htl]
    · intro _; exact htl

/-- Clock invariant of the state produced by a render cycle in which the gate
flags changed (`afterRender_gate` shape); fully determined, no premise about
the previous state is needed. -/
theorem clockInv_gateForm {post : AppState} :
    ClockInv (if post.isAutoActive && post.isConnected then
        { performUploadStart post with
            timeLeft := 60, uploadTimer := true, countdownTimer := true }
      else { post with uploadTimer := false, countdownTimer := false, timeLeft := 60 }) := by
  split
  · rename_i hA
    refine ⟨?_, ?_, by simp, by simp, ?_⟩
    · show true = ((performUploadStart post).isAutoActive
        && (performUploadStart post).isConnected)
      rw [performUploadStart_isAutoActive, performUploadStart_isConnected, hA]
    · show true = ((performUploadStart post).isAutoActive
        && (performUploadStart post).isConnected)
      rw [performUploadStart_isAutoActive, performUploadStart_isConnected, hA]
    · intro _; rfl
  · rename_i hA
    have hA' : (post.isAutoActive && post.isConnected) = false := by
      simpa using hA
    refine ⟨hA'.symm, hA'.symm, ?_, ?_, fun _ => rfl⟩
    · show (1 : Nat) ≤ 60; omega
    · show (60 : Nat) ≤ 60; omega

theorem updateById_cons_head {u : UploadRecord} {tl : List UploadRecord} {rid : Nat}
    (f : UploadRecord → UploadRecord) (hu : u.id = rid) (htl : ∀ v ∈ tl, v.id ≠ rid) :
    updateById (u :: tl) rid f = f u :: tl := by
  rw [updateById_cons, if_pos hu, updateById_of_forall_ne _ _ _ htl]

/-- Shape of the store while a run is in flight: the active record is the
newest (head) one, every other record is terminal and has a smaller id. -/
theorem StoreInv.run_shape {s : AppState} (h : StoreInv s) {rs : RunState}
    (hr : s.run = some rs) :
    ∃ u tl, s.uploads = u :: tl ∧ u.id = rs.recordId ∧ phaseInv rs.phase u
      ∧ (∀ v ∈ tl, recTerminal v) ∧ (∀ v ∈ tl, v.id ≠ rs.recordId)
      ∧ s.isProcessing = true ∧ rs.recordId + 1 = s.nextId := by
  obtain ⟨hproc, hnext, u, tl, hup, hid, hphi, hterm⟩ := h.run_some rs hr
  refine ⟨u, tl, hup, hid, hphi, hterm, ?_, hproc, hnext⟩
  have hids := h.ids
  rw [hup, ← hnext, List.range_succ, List.reverse_append] at hids
  have htl_ids : tl.map (·.id) = (List.range rs.recordId).reverse := by
    simpa using congrArg List.tail hids
  intro v hv
  exact Nat.ne_of_lt (id_lt_of_map_id_range tl _ htl_ids v hv)

theorem storeInv_metadataOk {s : AppState} (h : StoreInv s) {rs : RunState}
    (hr : s.run = some rs) (hph : rs.phase = .awaitMetadata) (g : GrowthData) :
    StoreInv { s with
      uploads := applyGrowth s.uploads rs.recordId g (stageAt 0)
    , run := some ⟨rs.recordId, .awaitDelay g 0⟩ } := by
  obtain ⟨u, tl, hup, hid, hphi, hterm, hne, hproc, hnext⟩ := h.run_shape hr
  have hupd : applyGrowth s.uploads rs.recordId g (stageAt 0)
      = { u with
            title := g.title
          , description := g.description
          , status := .processing
          , stage := stageAt 0
          , trendSource := some g.trendTopic
          , sources := some g.sources } :: tl := by
    rw [hup]
    exact updateById_cons_head _ hid hne
  refine ⟨?_, ?_, ?_, ?_⟩
  · show (applyGrowth s.uploads rs.recordId g (stageAt 0)).map (·.id)
      = (List.range s.nextId).reverse
    simp only [applyGrowth]
    refine Eq.trans (updateById_map_id _ _ _ ?_) h.ids
    intro u; rfl
  · intro hn; exact absurd hn (by simp)
  · intro rs' hrs'
    have : rs' = ⟨rs.recordId, .awaitDelay g 0⟩ := by simpa using hrs'.symm
    subst this
    refine ⟨hproc, hnext, _, tl, hupd, hid, ?_, hterm⟩
    exact ⟨by omega, rfl, rfl, rfl, rfl, rfl, rfl⟩
  · intro v hv
    rw [hupd] at hv
    rcases List.mem_cons.mp hv with h1 | h2
    · subst h1
      exact ⟨fun hc => by simp at hc, fun hc => by simp at hc, fun hc => by simp at hc⟩
    · exact h.recs v (by rw [hup]; exact List.mem_cons_of_mem _ h2)

theorem storeInv_delayMid {s : AppState} (h : StoreInv s) {rs : RunState}
    {g : GrowthData} {idx : Nat}
    (hr : s.run = some rs) (hph : rs.phase = .awaitDelay g idx) (hidx : idx + 1 < 6) :
    StoreInv { s with
      uploads := applyGrowth s.uploads rs.recordId g (stageAt (idx + 1))
    , run := some ⟨rs.recordId, .awaitDelay g (idx + 1)⟩ } := by
  obtain ⟨u, tl, hup, hid, hphi, hterm, hne, hproc, hnext⟩ := h.run_shape hr
  have hupd : applyGrowth s.uploads rs.recordId g (stageAt (idx + 1))
      = { u with
            title := g.title
          , description := g.description
          , status := .processing
          , stage := stageAt (idx + 1)
          , trendSource := some g.trendTopic
          , sources := some g.sources } :: tl := by
    rw [hup]
    exact updateById_cons_head _ hid hne
  refine ⟨?_, ?_, ?_, ?_⟩
  · show (applyGrowth s.uploads rs.recordId g (stageAt (idx + 1))).map (·.id)
      = (List.range s.nextId).reverse
    simp only [applyGrowth]
    refine Eq.trans (updateById_map_id _ _ _ ?_) h.ids
    intro u; rfl
  · intro hn; exact absurd hn (by simp)
  · intro rs' hrs'
    have : rs' = ⟨rs.recordId, .awaitDelay g (idx + 1)⟩ := by simpa using hrs'.symm
    subst this
    refine ⟨hproc, hnext, _, tl, hupd, hid, ?_, hterm⟩
    exact ⟨hidx, rfl, rfl, rfl, rfl, rfl, rfl⟩
  · intro v hv
    rw [hupd] at hv
    rcases List.mem_cons.mp hv with h1 | h2
    · subst h1
      exact ⟨fun hc => by simp at hc, fun hc => by simp at hc, fun hc => by simp at hc⟩
    · exact h.recs v (by rw [hup]; exact List.mem_cons_of_mem _ h2)

theorem storeInv_failPath {s : AppState} (h : StoreInv s) {rs : RunState}
    (hr : s.run = some rs) (hph : rs.phase = .awaitMetadata) :
    StoreInv (failPath s rs.recordId) := by
  obtain ⟨u, tl, hup, hid, hphi, hterm, hne, hproc, hnext⟩ := h.run_shape hr
  rw [hph] at hphi
  obtain ⟨hst, hsg⟩ := hphi
  have hupd : markFailed s.uploads rs.recordId
      = { u with status := .failed } :: tl := by
    rw [hup]
    exact updateById_cons_head _ hid hne
  refine ⟨?_, ?_, ?_, ?_⟩
  · show (markFailed s.uploads rs.recordId).map (·.id) = (List.range s.nextId).reverse
    simp only [markFailed]
    refine Eq.trans (updateById_map_id _ _ _ ?_) h.ids
    intro u; rfl
  · intro _
    refine ⟨rfl, ?_⟩
    intro v hv
    show recTerminal v
    rw [show (failPath s rs.recordId).uploads = markFailed s.uploads rs.recordId from rfl,
      hupd] at hv
    rcases List.mem_cons.mp hv with h1 | h2
    · subst h1; exact Or.inr rfl
    · exact hterm v h2
  · intro rs' hrs'; exact absurd hrs' (by simp [failPath])
  · intro v hv
    rw [show (failPath s rs.recordId).uploads = markFailed s.uploads rs.recordId from rfl,
      hupd] at hv
    rcases List.mem_cons.mp hv with h1 | h2
    · subst h1
      exact ⟨fun hc => by simp at hc, fun _ => hsg, fun hc => by simp at hc⟩
    · exact h.recs v (by rw [hup]; exact List.mem_cons_of_mem _ h2)

theorem storeInv_finalize {s : AppState} (h : StoreInv s) {rs : RunState}
    (hr : s.run = some rs) (r1 r2 : ℚ) :
    StoreInv { s with
      uploads := finalizeRecord s.uploads rs.recordId r1 r2
    , isProcessing := false
    , run := none } := by
  obtain ⟨u, tl, hup, hid, hphi, hterm, hne, hproc, hnext⟩ := h.run_shape hr
  have hupd : finalizeRecord s.uploads rs.recordId r1 r2
      = { u with
            status := .uploaded
          , stage := .publishing
          , metrics := some (4 + 8 * r1, 70 + 20 * r2)
          , thumbnail := finalThumb rs.recordId } :: tl := by
    rw [hup]
    exact updateById_cons_head _ hid hne
  refine ⟨?_, ?_, ?_, ?_⟩
  · show (finalizeRecord s.uploads rs.recordId r1 r2).map (·.id)
      = (List.range s.nextId).reverse
    simp only [finalizeRecord]
    refine Eq.trans (updateById_map_id _ _ _ ?_) h.ids
    intro u; rfl
  · intro _
    refine ⟨rfl, ?_⟩
    intro v hv
    show recTerminal v
    rw [show ({ s with
        uploads := finalizeRecord s.uploads rs.recordId r1 r2
      , isProcessing := false
      , run := none } : AppState).uploads = finalizeRecord s.uploads rs.recordId r1 r2
      from rfl, hupd] at hv
    rcases List.mem_cons.mp hv with h1 | h2
    · subst h1; exact Or.inl rfl
    · exact hterm v h2
  · intro rs' hrs'; exact absurd hrs' (by simp)
  · intro v hv
    rw [show ({ s with
        uploads := finalizeRecord s.uploads rs.recordId r1 r2
      , isProcessing := false
      , run := none } : AppState).uploads = finalizeRecord s.uploads rs.recordId r1 r2
      from rfl, hupd] at hv
    rcases List.mem_cons.mp hv with h1 | h2
    · subst h1
      exact ⟨fun hc => by simp at hc, fun hc => by simp at hc, fun _ => ⟨rfl, rfl⟩⟩
    · exact h.recs v (by rw [hup]; exact List.mem_cons_of_mem _ h2)

/-! ## The invariant holds in every reachable state -/

theorem sysInv_ui {s t : AppState} (h : SysInv s)
    (h1 : t.uploads = s.uploads) (h2 : t.run = s.run)
    (h3 : t.isProcessing = s.isProcessing) (h4 : t.nextId = s.nextId)
    (h5 : t.uploadTimer = s.uploadTimer) (h6 : t.countdownTimer = s.countdownTimer)
    (h7 : t.timeLeft = s.timeLeft) (h8 : t.isAutoActive = s.isAutoActive)
    (h9 : t.isConnected = s.isConnected) : SysInv t :=
  ⟨h.store.sameStoreFields h1 h2 h3 h4, h.clock.sameClockFields h5 h6 h7 h8 h9⟩

/-- Clock invariant is preserved across a render cycle with unchanged
effect dependencies. -/
theorem clockInv_render_keep {s t : AppState} (h : ClockInv s)
    (hud : uDeps t = uDeps s)
    (h5 : t.uploadTimer = s.uploadTimer) (h6 : t.countdownTimer = s.countdownTimer)
    (h7 : 1 ≤ t.timeLeft) (h8 : t.timeLeft ≤ 60)
    (h9 : (s.isAutoActive && s.isConnected) = false → t.timeLeft = 60) :
    ClockInv (afterRender s t) := by
  rw [afterRender_of_uDeps_eq hud]
  have ha : t.isAutoActive = s.isAutoActive := congrArg Prod.fst hud
  have hb : t.isConnected = s.isConnected := congrArg (fun p => p.2.1) hud
  refine ⟨?_, ?_, h7, h8, ?_⟩
  · rw [h5, ha, hb]; exact h.uT
  · rw [h6, ha, hb]; exact h.cT
  · rw [ha, hb]; exact h9

theorem sysInv_init : SysInv initState := by
  constructor
  · refine ⟨rfl, fun _ => ⟨rfl, ?_⟩, fun rs hrs => ?_, fun u hu => ?_⟩
    · intro u hu; exact absurd hu (List.not_mem_nil u)
    · exact absurd hrs (by simp [initState])
    · exact absurd hu (List.not_mem_nil u)
  · refine ⟨rfl, rfl, ?_, ?_, fun _ => rfl⟩
    · show (1 : Nat) ≤ 60; omega
    · show (60 : Nat) ≤ 60; omega

theorem sysInv_step {s : AppState} (e : Event) (h : SysInv s) : SysInv (step s e) := by
  cases e with
  | openLogin =>
      show SysInv (afterRender s { s with showLoginModal := true })
      refine ⟨StoreInv.render (h.store.sameStoreFields rfl rfl rfl rfl),
        clockInv_render_keep h.clock rfl rfl rfl h.clock.tl1 h.clock.tl60 h.clock.idle⟩
  | closeLogin =>
      show SysInv (afterRender s { s with showLoginModal := false })
      refine ⟨StoreInv.render (h.store.sameStoreFields rfl rfl rfl rfl),
        clockInv_render_keep h.clock rfl rfl rfl h.clock.tl1 h.clock.tl60 h.clock.idle⟩
  | connectStart email =>
      show SysInv (if s.isConnecting = true then s
        else afterRender s { s with isConnecting := true, pendingConnect := some email })
      split
      · exact h
      · refine ⟨StoreInv.render (h.store.sameStoreFields rfl rfl rfl rfl),
          clockInv_render_keep h.clock rfl rfl rfl h.clock.tl1 h.clock.tl60 h.clock.idle⟩
  | connectResolve r =>
      simp only [step]
      split
      · exact h
      · rename_i email hpc
        by_cases hconn : s.isConnected = true
        · refine ⟨StoreInv.render (h.store.sameStoreFields rfl rfl rfl rfl),
            clockInv_render_keep h.clock (by simp [uDeps, hconn]) rfl rfl
              h.clock.tl1 h.clock.tl60 h.clock.idle⟩
        · have hconn' : s.isConnected = false := by simpa using hconn
          refine ⟨StoreInv.render (h.store.sameStoreFields rfl rfl rfl rfl), ?_⟩
          rw [afterRender_gate (by simp [cDeps, hconn', Prod.ext_iff])]
          exact clockInv_gateForm
  | disconnect =>
      show SysInv (afterRender s
        { s with isAutoActive := false, isConnected := false, channel := none })
      cases ha : s.isAutoActive with
      | false =>
          cases hb : s.isConnected with
          | false =>
              refine ⟨StoreInv.render (h.store.sameStoreFields rfl rfl rfl rfl),
                clockInv_render_keep h.clock (by simp [uDeps, ha, hb]) rfl rfl
                  h.clock.tl1 h.clock.tl60 ?_⟩
              intro _
              exact h.clock.idle (by simp [ha])
          | true =>
              refine ⟨StoreInv.render (h.store.sameStoreFields rfl rfl rfl rfl), ?_⟩
              rw [afterRender_gate (by simp [cDeps, ha, hb, Prod.ext_iff])]
              exact clockInv_gateForm
      | true =>
          refine ⟨StoreInv.render (h.store.sameStoreFields rfl rfl rfl rfl), ?_⟩
          rw [afterRender_gate (by simp [cDeps, ha, Prod.ext_iff])]
          exact clockInv_gateForm
  | toggleAuto =>
      show SysInv (afterRender s { s with isAutoActive := !s.isAutoActive })
      refine ⟨StoreInv.render (h.store.sameStoreFields rfl rfl rfl rfl), ?_⟩
      rw [afterRender_gate (by
        cases ha : s.isAutoActive <;> simp [cDeps, ha, Prod.ext_iff])]
      exact clockInv_gateForm
  | manualTrigger =>
      show SysInv (afterRender s (performUploadStart s))
      by_cases hg : (s.isProcessing || !s.isConnected) = true
      · have hsame : performUploadStart s = s := by
          unfold performUploadStart; rw [if_pos hg]
        rw [hsame]
        refine ⟨StoreInv.render h.store,
          clockInv_render_keep h.clock rfl rfl rfl h.clock.tl1 h.clock.tl60 h.clock.idle⟩
      · have hbusy : s.isProcessing = false := by
          cases hp : s.isProcessing
          · rfl
          · rw [hp] at hg; simp at hg
        have hpost : (performUploadStart s).isProcessing = true := by
          unfold performUploadStart; rw [if_neg hg]
        have hcd : cDeps (performUploadStart s) = cDeps s := by
          simp [cDeps, performUploadStart_isAutoActive, performUploadStart_isConnected]
        refine ⟨StoreInv.render h.store.startUpload, ?_⟩
        rw [afterRender_runStart hcd hbusy hpost]
        exact clockInv_runStartForm h.clock hcd (performUploadStart_uploadTimer s)
          (performUploadStart_countdownTimer s) (Or.inl (performUploadStart_timeLeft s))
  | periodicFire =>
      show SysInv (if s.uploadTimer = true then
        afterRender s { performUploadStart s with timeLeft := 60 } else s)
      split
      · rename_i hT
        have hA : (s.isAutoActive && s.isConnected) = true := by
          rw [← h.clock.uT]; exact hT
        have hconn : s.isConnected = true := (Bool.and_eq_true _ _ |>.mp hA).2
        by_cases hbusy : s.isProcessing = true
        · have hsame : performUploadStart s = s := performUploadStart_of_busy hbusy
          rw [hsame]
          refine ⟨StoreInv.render (h.store.sameStoreFields rfl rfl rfl rfl),
            clockInv_render_keep h.clock rfl rfl rfl ?_ ?_ (fun _ => rfl)⟩
          · show (1 : Nat) ≤ 60; omega
          · show (60 : Nat) ≤ 60; omega
        · have hbusy' : s.isProcessing = false := by simpa using hbusy
          have hpost : ({ performUploadStart s with timeLeft := 60 } : AppState).isProcessing
              = true := by
            show (performUploadStart s).isProcessing = true
            unfold performUploadStart
            rw [if_neg (by simp [hbusy', hconn])]
          have hcd : cDeps ({ performUploadStart s with timeLeft := 60 } : AppState)
              = cDeps s := by
            simp [cDeps, performUploadStart_isAutoActive, performUploadStart_isConnected]
          refine ⟨StoreInv.render (StoreInv.sameStoreFields h.store.startUpload rfl rfl rfl rfl), ?_⟩
          rw [afterRender_runStart hcd hbusy' hpost]
          refine clockInv_runStartForm h.clock hcd ?_ ?_ (Or.inr rfl)
          · show (performUploadStart s).uploadTimer = s.uploadTimer
            exact performUploadStart_uploadTimer s
          · show (performUploadStart s).countdownTimer = s.countdownTimer
            exact performUploadStart_countdownTimer s
      · exact h
  | countdownTick =>
      show SysInv (if s.countdownTimer = true then
        afterRender s { s with timeLeft := if 1 < s.timeLeft then s.timeLeft - 1 else 60 }
        else s)
      split
      · rename_i hT
        have hA : (s.isAutoActive && s.isConnected) = true := by
          rw [← h.clock.cT]; exact hT
        refine ⟨StoreInv.render (h.store.sameStoreFields rfl rfl rfl rfl),
          clockInv_render_keep h.clock rfl rfl rfl ?_ ?_
            (fun hf => absurd hA (by simp [hf]))⟩
        · show 1 ≤ (if 1 < s.timeLeft then s.timeLeft - 1 else 60)
          have := h.clock.tl1
          split <;> omega
        · show (if 1 < s.timeLeft then s.timeLeft - 1 else 60) ≤ 60
          have := h.clock.tl60
          split <;> omega
      · exact h
  | metadataOk g =>
      simp only [step]
      split
      · rename_i rs hr
        split
        · rename_i hph
          exact ⟨StoreInv.render (storeInv_metadataOk h.store hr hph g),
            clockInv_render_keep h.clock rfl rfl rfl h.clock.tl1 h.clock.tl60 h.clock.idle⟩
        · exact h
      · exact h
  | metadataFail =>
      simp only [step]
      split
      · rename_i rs hr
        split
        · rename_i hph
          have hproc := (h.store.run_some rs hr).1
          have hcd2 : cDeps (failPath s rs.recordId) = cDeps s := rfl
          have hpost2 : (failPath s rs.recordId).isProcessing = false := rfl
          refine ⟨StoreInv.render (storeInv_failPath h.store hr hph), ?_⟩
          rw [afterRender_runEnd hcd2 hproc hpost2]
          exact clockInv_runEndForm h.clock hcd2 rfl rfl (Or.inl rfl)
        · exact h
      · exact h
  | delayElapsed r1 r2 =>
      simp only [step]
      split
      · rename_i rs hr
        split
        · exact h
        · rename_i g idx hph
          split
          · rename_i hidx
            exact ⟨StoreInv.render (storeInv_delayMid h.store hr hph hidx),
              clockInv_render_keep h.clock rfl rfl rfl h.clock.tl1 h.clock.tl60 h.clock.idle⟩
          · have hproc := (h.store.run_some rs hr).1
            have hcd2 : cDeps ({ s with uploads := finalizeRecord s.uploads rs.recordId r1 r2, isProcessing := false, run := none } : AppState) = cDeps s := rfl
            have hpost2 : ({ s with uploads := finalizeRecord s.uploads rs.recordId r1 r2, isProcessing := false, run := none } : AppState).isProcessing = false := rfl
            refine ⟨StoreInv.render (storeInv_finalize h.store hr r1 r2), ?_⟩
            rw [afterRender_runEnd hcd2 hproc hpost2]
            exact clockInv_runEndForm h.clock hcd2 rfl rfl (Or.inl rfl)
      · exact h

theorem reachable_sysInv {s : AppState} (h : Reachable s) : SysInv s := by
  induction h with
  | init => exact sysInv_init
  | step _ _ ih => exact sysInv_step _ ih

/-! ## How one step transforms the record store -/

/-- The status-transition relation as the spec states it: a status either
stays put or follows the chain pending → processing → (uploaded | failed). -/
def statusStepSpec (a b : Status) : Prop :=
  a = b ∨ (a = .pending ∧ b = .processing)
    ∨ (a = .processing ∧ (b = .uploaded ∨ b = .failed))

/-- The status-transition relation the code actually follows: additionally, a
record whose provider call fails moves directly from pending to failed (the
catch block of lines 141-143 runs while the record is still pending). -/
def statusStep (a b : Status) : Prop :=
  statusStepSpec a b ∨ (a = .pending ∧ b = .failed)

instance (a b : Status) : Decidable (statusStepSpec a b) := by
  unfold statusStepSpec; infer_instance

instance (a b : Status) : Decidable (statusStep a b) := by
  unfold statusStep; infer_instance

theorem afterRender_uploads_of_uDeps_eq {pre post : AppState}
    (h : uDeps post = uDeps pre) : (afterRender pre post).uploads = post.uploads := by
  rw [afterRender_of_uDeps_eq h]

/-- Every step of the event loop transforms the record store in one of three
ways: it leaves it untouched; it prepends one fresh pending record (a new
run, with the countdown reset to 60); or it point-updates the active (head)
record with a legal status transition, possibly additionally prepending a
fresh pending record when the upload-timer effect refires on run
completion.  Ids are never removed and the order of existing records is
kept. -/
theorem step_shape {s : AppState} (h : SysInv s) (e : Event) :
    (step s e).uploads = s.uploads
    ∨ ((step s e).uploads = initialRecord s.nextId s.format :: s.uploads
        ∧ (step s e).timeLeft = 60 ∧ s.run = none)
    ∨ ∃ rs u tl v,
        s.run = some rs ∧ s.uploads = u :: tl ∧ u.id = rs.recordId
        ∧ statusStep u.status v.status ∧ v.id = u.id
        ∧ ((step s e).uploads = v :: tl
          ∨ ((step s e).uploads = initialRecord s.nextId s.format :: v :: tl
              ∧ recTerminal v ∧ (step s e).timeLeft = 60)) := by
  have hfresh : s.isProcessing = false → s.run = none := by
    intro hp
    cases hrun : s.run with
    | none => rfl
    | some rs =>
        have := (h.store.run_some rs hrun).1
        rw [hp] at this; exact absurd this (by simp)
  cases e with
  | openLogin => exact Or.inl (afterRender_uploads_of_uDeps_eq rfl)
  | closeLogin => exact Or.inl (afterRender_uploads_of_uDeps_eq rfl)
  | connectStart email =>
      show ((if s.isConnecting = true then s else afterRender s
        { s with isConnecting := true, pendingConnect := some email }).uploads = s.uploads) ∨ _
      split
      · exact Or.inl rfl
      · exact Or.inl (afterRender_uploads_of_uDeps_eq rfl)
  | countdownTick =>
      show ((if s.countdownTimer = true then afterRender s
        { s with timeLeft := if 1 < s.timeLeft then s.timeLeft - 1 else 60 }
        else s).uploads = s.uploads) ∨ _
      split
      · exact Or.inl (afterRender_uploads_of_uDeps_eq rfl)
      · exact Or.inl rfl
  | manualTrigger =>
      have hstep : step s .manualTrigger = afterRender s (performUploadStart s) := rfl
      rw [hstep]
      by_cases hg : (s.isProcessing || !s.isConnected) = true
      · have hsame : performUploadStart s = s := by
          unfold performUploadStart; rw [if_pos hg]
        rw [hsame]
        exact Or.inl (afterRender_uploads_of_uDeps_eq rfl)
      · have hbusy : s.isProcessing = false := by
          cases hp : s.isProcessing
          · rfl
          · rw [hp] at hg; simp at hg
        have hpost : (performUploadStart s).isProcessing = true := by
          unfold performUploadStart; rw [if_neg hg]
        have hcd : cDeps (performUploadStart s) = cDeps s := by
          simp [cDeps, performUploadStart_isAutoActive, performUploadStart_isConnected]
        have hup : (performUploadStart s).uploads
            = initialRecord s.nextId s.format :: s.uploads := by
          unfold performUploadStart; rw [if_neg hg]
        refine Or.inr (Or.inl ⟨?_, ?_, hfresh hbusy⟩)
        · rw [afterRender_runStart hcd hbusy hpost]
          split
          · show (performUploadStart s).uploads = _
            exact hup
          · exact hup
        · rw [afterRender_runStart hcd hbusy hpost]
          split
          · rfl
          · rename_i hA
            show (performUploadStart s).timeLeft = 60
            rw [performUploadStart_timeLeft]
            refine h.clock.idle ?_
            rw [← performUploadStart_isAutoActive s, ← performUploadStart_isConnected s]
            simpa using hA
  | periodicFire =>
      have hstep : step s .periodicFire = if s.uploadTimer = true then
          afterRender s { performUploadStart s with timeLeft := 60 } else s := rfl
      rw [hstep]
      split
      · rename_i hT
        have hA : (s.isAutoActive && s.isConnected) = true := by
          rw [← h.clock.uT]; exact hT
        have hconn : s.isConnected = true := (Bool.and_eq_true _ _ |>.mp hA).2
        by_cases hbusy : s.isProcessing = true
        · have hsame : performUploadStart s = s := performUploadStart_of_busy hbusy
          rw [hsame]
          exact Or.inl (afterRender_uploads_of_uDeps_eq rfl)
        · have hbusy' : s.isProcessing = false := by simpa using hbusy
          have hpost : ({ performUploadStart s with timeLeft := 60 } : AppState).isProcessing
              = true := by
            show (performUploadStart s).isProcessing = true
            unfold performUploadStart
            rw [if_neg (by simp [hbusy', hconn])]
          have hcd : cDeps ({ performUploadStart s with timeLeft := 60 } : AppState)
              = cDeps s := by
            simp [cDeps, performUploadStart_isAutoActive, performUploadStart_isConnected]
          have hup : (performUploadStart s).uploads
              = initialRecord s.nextId s.format :: s.uploads := by
            unfold performUploadStart
            rw [if_neg (by simp [hbusy', hconn])]
          refine Or.inr (Or.inl ⟨?_, ?_, hfresh hbusy'⟩)
          · rw [afterRender_runStart hcd hbusy' hpost]
            split
            · exact hup
            · exact hup
          · rw [afterRender_runStart hcd hbusy' hpost]
            split
            · rfl
            · rename_i hA2
              exact absurd hA (by simpa [performUploadStart_isAutoActive,
                performUploadStart_isConnected] using hA2)
      · exact Or.inl rfl
  | connectResolve r =>
      simp only [step]
      split
      · exact Or.inl rfl
      · rename_i email hpc
        by_cases hconn : s.isConnected = true
        · exact Or.inl (afterRender_uploads_of_uDeps_eq (by simp [uDeps, hconn]))
        · have hconn' : s.isConnected = false := by simpa using hconn
          have hcd : ¬(cDeps ({ s with channel := some (mkChannel email r), isConnected := true, isConnecting := false, showLoginModal := false, pendingConnect := none } : AppState) = cDeps s) := by
            simp [cDeps, hconn', Prod.ext_iff]
          rw [afterRender_gate hcd]
          split
          · rename_i hA
            by_cases hbusy : s.isProcessing = true
            · have husame : (performUploadStart ({ s with channel := some (mkChannel email r), isConnected := true, isConnecting := false, showLoginModal := false, pendingConnect := none } : AppState)).uploads = s.uploads := by
                rw [performUploadStart_of_busy (show ({ s with channel := some (mkChannel email r), isConnected := true, isConnecting := false, showLoginModal := false, pendingConnect := none } : AppState).isProcessing = true from hbusy)]
              exact Or.inl husame
            · have hbusy' : s.isProcessing = false := by simpa using hbusy
              have hpu : (performUploadStart ({ s with channel := some (mkChannel email r), isConnected := true, isConnecting := false, showLoginModal := false, pendingConnect := none } : AppState)).uploads = initialRecord s.nextId s.format :: s.uploads := by
                unfold performUploadStart
                rw [if_neg (by simp [hbusy'])]
              refine Or.inr (Or.inl ⟨hpu, rfl, hfresh hbusy'⟩)
          · exact Or.inl rfl
  | disconnect =>
      have hstep : step s .disconnect = afterRender s
          { s with isAutoActive := false, isConnected := false, channel := none } := rfl
      rw [hstep]
      cases ha : s.isAutoActive with
      | false =>
          cases hb : s.isConnected with
          | false =>
              exact Or.inl (afterRender_uploads_of_uDeps_eq (by simp [uDeps, ha, hb]))
          | true =>
              rw [afterRender_gate (by simp [cDeps, ha, hb, Prod.ext_iff])]
              split
              · rename_i hA
                exact absurd hA (by simp)
              · exact Or.inl rfl
      | true =>
          rw [afterRender_gate (by simp [cDeps, ha, Prod.ext_iff])]
          split
          · rename_i hA
            exact absurd hA (by simp)
          · exact Or.inl rfl
  | toggleAuto =>
      have hstep : step s .toggleAuto = afterRender s
          { s with isAutoActive := !s.isAutoActive } := rfl
      rw [hstep]
      rw [afterRender_gate (by
        cases ha : s.isAutoActive <;> simp [cDeps, ha, Prod.ext_iff])]
      split
      · rename_i hA
        have hconn : s.isConnected = true := (Bool.and_eq_true _ _ |>.mp hA).2
        by_cases hbusy : s.isProcessing = true
        · have husame : (performUploadStart ({ s with isAutoActive := !s.isAutoActive } : AppState)).uploads = s.uploads := by
            rw [performUploadStart_of_busy (show ({ s with isAutoActive := !s.isAutoActive } : AppState).isProcessing = true from hbusy)]
          exact Or.inl husame
        · have hbusy' : s.isProcessing = false := by simpa using hbusy
          have hpu : (performUploadStart ({ s with isAutoActive := !s.isAutoActive } : AppState)).uploads = initialRecord s.nextId s.format :: s.uploads := by
            unfold performUploadStart
            rw [if_neg (by simp [hbusy', hconn])]
          refine Or.inr (Or.inl ⟨hpu, rfl, hfresh hbusy'⟩)
      · exact Or.inl rfl
  | metadataOk g =>
      simp only [step]
      split
      · rename_i rs hr
        split
        · rename_i hph
          obtain ⟨u, tl, hup, hid, hphi, hterm, hne, hproc, hnext⟩ := h.store.run_shape hr
          rw [hph] at hphi
          have hupd : applyGrowth s.uploads rs.recordId g (stageAt 0)
              = { u with
                    title := g.title
                  , description := g.description
                  , status := .processing
                  , stage := stageAt 0
                  , trendSource := some g.trendTopic
                  , sources := some g.sources } :: tl := by
            rw [hup]
            exact updateById_cons_head _ hid hne
          refine Or.inr (Or.inr ⟨rs, u, tl,
            { u with
                title := g.title
              , description := g.description
              , status := .processing
              , stage := stageAt 0
              , trendSource := some g.trendTopic
              , sources := some g.sources }, hr, hup, hid, ?_, rfl, Or.inl ?_⟩)
          · exact Or.inl (Or.inr (Or.inl ⟨hphi.1, rfl⟩))
          · refine Eq.trans (afterRender_uploads_of_uDeps_eq ?_) ?_
            · rfl
            · exact hupd
        · exact Or.inl rfl
      · exact Or.inl rfl
  | metadataFail =>
      simp only [step]
      split
      · rename_i rs hr
        split
        · rename_i hph
          obtain ⟨u, tl, hup, hid, hphi, hterm, hne, hproc, hnext⟩ := h.store.run_shape hr
          rw [hph] at hphi
          have hupd : markFailed s.uploads rs.recordId
              = { u with status := .failed } :: tl := by
            rw [hup]
            exact updateById_cons_head _ hid hne
          have hcd2 : cDeps (failPath s rs.recordId) = cDeps s := rfl
          have hpost2 : (failPath s rs.recordId).isProcessing = false := rfl
          rw [afterRender_runEnd hcd2 hproc hpost2]
          refine Or.inr (Or.inr ⟨rs, u, tl, { u with status := .failed }, hr, hup, hid,
            Or.inr ⟨hphi.1, rfl⟩, rfl, ?_⟩)
          split
          · rename_i hA
            have hconn : s.isConnected = true := (Bool.and_eq_true _ _ |>.mp hA).2
            have hpu : (performUploadStart (failPath s rs.recordId)).uploads
                = initialRecord s.nextId s.format :: markFailed s.uploads rs.recordId := by
              unfold performUploadStart
              rw [if_neg (by simp [failPath, hconn])]
              rfl
            refine Or.inr ⟨?_, Or.inr rfl, rfl⟩
            show (performUploadStart (failPath s rs.recordId)).uploads = _
            rw [hpu, hupd]
          · refine Or.inl ?_
            show (failPath s rs.recordId).uploads = _
            show markFailed s.uploads rs.recordId = _
            rw [hupd]
        · exact Or.inl rfl
      · exact Or.inl rfl
  | delayElapsed r1 r2 =>
      simp only [step]
      split
      · rename_i rs hr
        split
        · exact Or.inl rfl
        · rename_i g idx hph
          obtain ⟨u, tl, hup, hid, hphi, hterm, hne, hproc, hnext⟩ := h.store.run_shape hr
          rw [hph] at hphi
          split
          · rename_i hidx
            have hupd : applyGrowth s.uploads rs.recordId g (stageAt (idx + 1))
                = { u with
                      title := g.title
                    , description := g.description
                    , status := .processing
                    , stage := stageAt (idx + 1)
                    , trendSource := some g.trendTopic
                    , sources := some g.sources } :: tl := by
              rw [hup]
              exact updateById_cons_head _ hid hne
            refine Or.inr (Or.inr ⟨rs, u, tl,
              { u with
                  title := g.title
                , description := g.description
                , status := .processing
                , stage := stageAt (idx + 1)
                , trendSource := some g.trendTopic
                , sources := some g.sources }, hr, hup, hid, ?_, rfl, Or.inl ?_⟩)
            · exact Or.inl (Or.inl (by rw [hphi.2.1]))
            · refine Eq.trans (afterRender_uploads_of_uDeps_eq ?_) ?_
              · rfl
              · exact hupd
          · have hupd : finalizeRecord s.uploads rs.recordId r1 r2
                = { u with
                      status := .uploaded
                    , stage := .publishing
                    , metrics := some (4 + 8 * r1, 70 + 20 * r2)
                    , thumbnail := finalThumb rs.recordId } :: tl := by
              rw [hup]
              exact updateById_cons_head _ hid hne
            have hcd2 : cDeps ({ s with uploads := finalizeRecord s.uploads rs.recordId r1 r2, isProcessing := false, run := none } : AppState) = cDeps s := rfl
            have hpost2 : ({ s with uploads := finalizeRecord s.uploads rs.recordId r1 r2, isProcessing := false, run := none } : AppState).isProcessing = false := rfl
            rw [afterRender_runEnd hcd2 hproc hpost2]
            refine Or.inr (Or.inr ⟨rs, u, tl,
              { u with
                  status := .uploaded
                , stage := .publishing
                , metrics := some (4 + 8 * r1, 70 + 20 * r2)
                , thumbnail := finalThumb rs.recordId }, hr, hup, hid,
              Or.inl (Or.inr (Or.inr ⟨hphi.2.1, Or.inl rfl⟩)), rfl, ?_⟩)
            split
            · rename_i hA
              have hconn : s.isConnected = true := (Bool.and_eq_true _ _ |>.mp hA).2
              have hpu : (performUploadStart ({ s with uploads := finalizeRecord s.uploads rs.recordId r1 r2, isProcessing := false, run := none } : AppState)).uploads
                  = initialRecord s.nextId s.format :: finalizeRecord s.uploads rs.recordId r1 r2 := by
                unfold performUploadStart
                rw [if_neg (by simp [hconn])]
              refine Or.inr ⟨?_, Or.inl rfl, rfl⟩
              show (performUploadStart ({ s with uploads := finalizeRecord s.uploads rs.recordId r1 r2, isProcessing := false, run := none } : AppState)).uploads = _
              rw [hpu, hupd]
            · refine Or.inl ?_
              show finalizeRecord s.uploads rs.recordId r1 r2 = _
              rw [hupd]
      · exact Or.inl rfl

/-! ## Observables and demo states -/

/-- Number of records currently holding status pending or processing. -/
def countNonTerminal (l : List UploadRecord) : Nat :=
  l.countP fun u => u.status == .pending || u.status == .processing

/-- The record with a given id, as external consumers look it up. -/
def recordView (s : AppState) (i : Nat) : Option UploadRecord :=
  s.uploads.find? fun u => u.id == i

/-- Status of the record with a given id. -/
def recordStatus (s : AppState) (i : Nat) : Option Status :=
  (recordView s i).map (·.status)

theorem uploadEffect_isConnected (t : AppState) :
    (uploadEffect t).isConnected = t.isConnected := by
  unfold uploadEffect
  split
  · exact performUploadStart_isConnected t
  · rfl

theorem uploadEffect_isAutoActive (t : AppState) :
    (uploadEffect t).isAutoActive = t.isAutoActive := by
  unfold uploadEffect
  split
  · exact performUploadStart_isAutoActive t
  · rfl

theorem uploadEffect_isConnecting (t : AppState) :
    (uploadEffect t).isConnecting = t.isConnecting := by
  unfold uploadEffect
  split
  · exact performUploadStart_isConnecting t
  · rfl

theorem uploadEffect_showLoginModal (t : AppState) :
    (uploadEffect t).showLoginModal = t.showLoginModal := by
  unfold uploadEffect
  split
  · exact performUploadStart_showLoginModal t
  · rfl

theorem uploadEffect_channel (t : AppState) :
    (uploadEffect t).channel = t.channel := by
  unfold uploadEffect
  split
  · exact performUploadStart_channel t
  · rfl

theorem countdownEffect_isConnected (t : AppState) :
    (countdownEffect t).isConnected = t.isConnected := by
  unfold countdownEffect; split <;> rfl

theorem countdownEffect_isAutoActive (t : AppState) :
    (countdownEffect t).isAutoActive = t.isAutoActive := by
  unfold countdownEffect; split <;> rfl

theorem countdownEffect_isConnecting (t : AppState) :
    (countdownEffect t).isConnecting = t.isConnecting := by
  unfold countdownEffect; split <;> rfl

theorem countdownEffect_showLoginModal (t : AppState) :
    (countdownEffect t).showLoginModal = t.showLoginModal := by
  unfold countdownEffect; split <;> rfl

theorem countdownEffect_channel (t : AppState) :
    (countdownEffect t).channel = t.channel := by
  unfold countdownEffect; split <;> rfl

/-- The render/effect cycle never changes a field that neither effect
writes. -/
theorem afterRender_proj {α : Type} (f : AppState → α)
    (hu : ∀ t, f (uploadEffect t) = f t) (hc : ∀ t, f (countdownEffect t) = f t)
    (pre post : AppState) : f (afterRender pre post) = f post := by
  unfold afterRender
  dsimp only
  split <;> split <;> split <;> simp only [hu, hc]

theorem afterRender_isConnected (pre post : AppState) :
    (afterRender pre post).isConnected = post.isConnected :=
  afterRender_proj (fun t => t.isConnected)
    uploadEffect_isConnected countdownEffect_isConnected pre post

theorem afterRender_isAutoActive (pre post : AppState) :
    (afterRender pre post).isAutoActive = post.isAutoActive :=
  afterRender_proj (fun t => t.isAutoActive)
    uploadEffect_isAutoActive countdownEffect_isAutoActive pre post

theorem afterRender_isConnecting (pre post : AppState) :
    (afterRender pre post).isConnecting = post.isConnecting :=
  afterRender_proj (fun t => t.isConnecting)
    uploadEffect_isConnecting countdownEffect_isConnecting pre post

theorem afterRender_showLoginModal (pre post : AppState) :
    (afterRender pre post).showLoginModal = post.showLoginModal :=
  afterRender_proj (fun t => t.showLoginModal)
    uploadEffect_showLoginModal countdownEffect_showLoginModal pre post

theorem afterRender_channel (pre post : AppState) :
    (afterRender pre post).channel = post.channel :=
  afterRender_proj (fun t => t.channel)
    uploadEffect_channel countdownEffect_channel pre post

/-- A connected, idle, auto-off demo state: connect with an email and let the
1500 ms latency elapse. -/
def sConn : AppState :=
  step (step initState (.connectStart "creator@example.com")) (.connectResolve (1/2))

theorem sConn_reachable : Reachable sConn :=
  Reachable.step (Reachable.step Reachable.init trivial) (by constructor <;> norm_num)

/-- Demo state with one run in flight, waiting on the metadata provider:
toggling auto-mode on while connected fires immediately. -/
def sRun : AppState := step sConn .toggleAuto

theorem sRun_reachable : Reachable sRun :=
  Reachable.step sConn_reachable trivial

/-- Demo payload from the metadata provider. -/
def gDemo : GrowthData :=
  { title := "T", description := "D", trendTopic := "trend", sources := ["s1"] }

/-- Demo state with the run one stage into the loop. -/
def sOk : AppState := step sRun (.metadataOk gDemo)

theorem sOk_reachable : Reachable sOk :=
  Reachable.step sRun_reachable trivial

/-! ## Claims -/

theorem trigger_noop {s : AppState} (hbusy : s.isProcessing = true) :
    step s .manualTrigger = s := by
  have hstep : step s .manualTrigger = afterRender s (performUploadStart s) := rfl
  rw [hstep, performUploadStart_of_busy hbusy, afterRender_of_uDeps_eq rfl]

theorem periodic_noop_uploads {s : AppState} (hbusy : s.isProcessing = true) :
    (step s .periodicFire).uploads = s.uploads := by
  have hstep : step s .periodicFire = if s.uploadTimer = true then
      afterRender s { performUploadStart s with timeLeft := 60 } else s := rfl
  rw [hstep]
  split
  · rw [performUploadStart_of_busy hbusy]
    exact afterRender_uploads_of_uDeps_eq rfl
  · rfl

theorem manualTrigger_fired {s : AppState}
    (hbusy : s.isProcessing = false) (hconn : s.isConnected = true) :
    (step s .manualTrigger).uploads = initialRecord s.nextId s.format :: s.uploads
    ∧ (step s .manualTrigger).isProcessing = true := by
  have hg : ¬(s.isProcessing || !s.isConnected) = true := by simp [hbusy, hconn]
  have hpost : (performUploadStart s).isProcessing = true := by
    unfold performUploadStart; rw [if_neg hg]
  have hup : (performUploadStart s).uploads
      = initialRecord s.nextId s.format :: s.uploads := by
    unfold performUploadStart; rw [if_neg hg]
  have hcd : cDeps (performUploadStart s) = cDeps s := by
    simp [cDeps, performUploadStart_isAutoActive, performUploadStart_isConnected]
  have hstep : step s .manualTrigger = afterRender s (performUploadStart s) := rfl
  rw [hstep, afterRender_runStart hcd hbusy hpost]
  constructor
  · split
    · exact hup
    · exact hup
  · split
    · exact hpost
    · exact hpost

/-- C1: at most one record is ever pending or processing; a trigger arriving
while the busy guard is held is a no-op (a manual call changes nothing at
all, a periodic tick leaves the Record Store untouched); two back-to-back
manual triggers from an idle connected state grow the store by exactly one
record. -/
theorem C1_single_flight {s : AppState} (hs : Reachable s) :
    countNonTerminal s.uploads ≤ 1
    ∧ (s.isProcessing = true →
        step s .manualTrigger = s ∧ (step s .periodicFire).uploads = s.uploads)
    ∧ (s.isProcessing = false → s.isConnected = true →
        (step (step s .manualTrigger) .manualTrigger).uploads.length
          = s.uploads.length + 1) := by
  have h := reachable_sysInv hs
  refine ⟨?_, fun hb => ⟨trigger_noop hb, periodic_noop_uploads hb⟩, fun hb hc => ?_⟩
  · cases hrun : s.run with
    | none =>
        have hterm := (h.store.run_none hrun).2
        have : countNonTerminal s.uploads = 0 := by
          rw [countNonTerminal, List.countP_eq_zero]
          intro u hu
          rcases hterm u hu with ht | ht <;> simp [ht]
        omega
    | some rs =>
        obtain ⟨u, tl, hup, hid, hphi, hterm, hne, hproc, hnext⟩ := h.store.run_shape hrun
        have htl0 : countNonTerminal tl = 0 := by
          rw [countNonTerminal, List.countP_eq_zero]
          intro v hv
          rcases hterm v hv with ht | ht <;> simp [ht]
        rw [hup, countNonTerminal, List.countP_cons]
        have : tl.countP (fun u => u.status == .pending || u.status == .processing) = 0 :=
          htl0
        have hbit : (if (u.status == Status.pending || u.status == Status.processing) = true
            then 1 else 0) ≤ 1 := by split <;> omega
        omega
  · obtain ⟨hup1, hproc1⟩ := manualTrigger_fired hb hc
    rw [trigger_noop hproc1, hup1]
    rfl

theorem C1_single_flight_witness :
    countNonTerminal sConn.uploads ≤ 1
    ∧ (sConn.isProcessing = true →
        step sConn .manualTrigger = sConn
        ∧ (step sConn .periodicFire).uploads = sConn.uploads)
    ∧ (sConn.isProcessing = false → sConn.isConnected = true →
        (step (step sConn .manualTrigger) .manualTrigger).uploads.length
          = sConn.uploads.length + 1) :=
  C1_single_flight sConn_reachable

/-- C5 (code-bug evidence): from the reachable state `sRun` — gate
connected, auto-mode just enabled, exactly one record whose run awaits the
provider — delivering only the provider completion (no manual trigger, no
periodic tick, no 60 time-units elapsing) leaves a store of two records with
a fresh pending run already in flight: when `isProcessing` resets in the
`finally`, `performUpload`'s `useCallback` identity changes, the upload-timer
effect re-runs and its `performUpload()` call fires immediately, so the
scheduler does not wait for the 60-unit period. -/
theorem C5_dep_refire_bug :
    Reachable sRun
    ∧ sRun.uploads.length = 1
    ∧ sRun.isProcessing = true
    ∧ (step sRun .metadataFail).uploads.length = 2
    ∧ ((step sRun .metadataFail).uploads.head?.map (·.status)) = some .pending
    ∧ (step sRun .metadataFail).isProcessing = true :=
  ⟨sRun_reachable, rfl, rfl, rfl, rfl, rfl⟩

/-- C7: while auto-mode is active and the gate connected the countdown value
stays in [1, 60], ticking down by 1 and wrapping from 1 back to 60; whenever
auto-mode is inactive or the gate disconnected the countdown interval is
disarmed, ticks are no-ops, and the value rests at exactly 60. -/
theorem C7_countdown_bounds {s : AppState} (hs : Reachable s) :
    (1 ≤ s.timeLeft ∧ s.timeLeft ≤ 60)
    ∧ s.countdownTimer = (s.isAutoActive && s.isConnected)
    ∧ ((s.isAutoActive && s.isConnected) = false →
        s.timeLeft = 60 ∧ s.countdownTimer = false ∧ step s .countdownTick = s)
    ∧ (s.countdownTimer = true →
        (step s .countdownTick).timeLeft
          = if 1 < s.timeLeft then s.timeLeft - 1 else 60) := by
  have h := reachable_sysInv hs
  have hstep : step s .countdownTick = if s.countdownTimer = true then
      afterRender s { s with timeLeft := if 1 < s.timeLeft then s.timeLeft - 1 else 60 }
      else s := rfl
  refine ⟨⟨h.clock.tl1, h.clock.tl60⟩, h.clock.cT, fun hf => ⟨h.clock.idle hf, ?_, ?_⟩,
    fun hT => ?_⟩
  · rw [h.clock.cT, hf]
  · have hct : s.countdownTimer = false := by rw [h.clock.cT, hf]
    rw [hstep, hct]
    simp
  · rw [hstep, if_pos hT]
    rw [afterRender_of_uDeps_eq (show uDeps ({ s with
      timeLeft := if 1 < s.timeLeft then s.timeLeft - 1 else 60 } : AppState)
      = uDeps s from rfl)]

theorem C7_countdown_bounds_witness :
    (1 ≤ sConn.timeLeft ∧ sConn.timeLeft ≤ 60)
    ∧ sConn.countdownTimer = (sConn.isAutoActive && sConn.isConnected)
    ∧ ((sConn.isAutoActive && sConn.isConnected) = false →
        sConn.timeLeft = 60 ∧ sConn.countdownTimer = false
        ∧ step sConn .countdownTick = sConn)
    ∧ (sConn.countdownTimer = true →
        (step sConn .countdownTick).timeLeft
          = if 1 < sConn.timeLeft then sConn.timeLeft - 1 else 60) :=
  C7_countdown_bounds sConn_reachable

/-- C8: the upload timer is never armed while the gate is disconnected;
enabling auto-mode while disconnected changes no record, starts no run and
arms no timer (the flag alone flips); and disconnect deactivates auto-mode
as a side effect, disarming everything. -/
theorem C8_scheduler_gated {s : AppState} (hs : Reachable s) :
    (s.isConnected = false → s.uploadTimer = false)
    ∧ (s.isConnected = false → s.isAutoActive = false →
        (step s .toggleAuto).uploads = s.uploads
        ∧ (step s .toggleAuto).run = s.run
        ∧ (step s .toggleAuto).uploadTimer = false
        ∧ (step s .toggleAuto).isAutoActive = true)
    ∧ ((step s .disconnect).isAutoActive = false
        ∧ (step s .disconnect).isConnected = false
        ∧ (step s .disconnect).uploadTimer = false) := by
  have h := reachable_sysInv hs
  refine ⟨fun hc => by rw [h.clock.uT, hc, Bool.and_false], fun hc ha => ?_, ?_⟩
  · have hstep : step s .toggleAuto
        = afterRender s { s with isAutoActive := !s.isAutoActive } := rfl
    have hcd : ¬(cDeps ({ s with isAutoActive := !s.isAutoActive } : AppState)
        = cDeps s) := by
      simp [cDeps, ha, Prod.ext_iff]
    rw [hstep, afterRender_gate hcd, if_neg (by simp [hc])]
    refine ⟨rfl, rfl, rfl, ?_⟩
    show (!s.isAutoActive) = true
    rw [ha]
    rfl
  · have hr2 : Reachable (step s .disconnect) := Reachable.step hs trivial
    have h2 := reachable_sysInv hr2
    have hstep : step s .disconnect = afterRender s
        { s with isAutoActive := false, isConnected := false, channel := none } := rfl
    have hauto : (step s .disconnect).isAutoActive = false := by
      rw [hstep, afterRender_isAutoActive]
    have hconn : (step s .disconnect).isConnected = false := by
      rw [hstep, afterRender_isConnected]
    refine ⟨hauto, hconn, ?_⟩
    rw [h2.clock.uT, hauto, Bool.false_and]

theorem C8_scheduler_gated_witness :
    (initState.isConnected = false → initState.uploadTimer = false)
    ∧ (initState.isConnected = false → initState.isAutoActive = false →
        (step initState .toggleAuto).uploads = initState.uploads
        ∧ (step initState .toggleAuto).run = initState.run
        ∧ (step initState .toggleAuto).uploadTimer = false
        ∧ (step initState .toggleAuto).isAutoActive = true)
    ∧ ((step initState .disconnect).isAutoActive = false
        ∧ (step initState .disconnect).isConnected = false
        ∧ (step initState .disconnect).uploadTimer = false) :=
  C8_scheduler_gated Reachable.init

/-- C6: whenever a step of the event loop creates a new record — a scheduler
fire, whether manual, periodic, the immediate activation fire, or the effect
refire — the countdown reads exactly 60 (the period) in the resulting state;
a periodic tick also resets the countdown even when the single-flight guard
drops it. -/
theorem C6_countdown_reset_on_fire {s : AppState} (hs : Reachable s) {e : Event}
    (hv : e.valid) :
    ((step s e).uploads.length = s.uploads.length + 1 → (step s e).timeLeft = 60)
    ∧ (s.uploadTimer = true → (step s .periodicFire).timeLeft = 60) := by
  have h := reachable_sysInv hs
  constructor
  · intro hlen
    rcases step_shape h e with hsh | ⟨hup, htl, -⟩ | ⟨rs, u, tl, v, hr, hup, hid, hss, hvid, hsh⟩
    · rw [hsh] at hlen; omega
    · exact htl
    · rcases hsh with hupe | ⟨hupe, -, htl⟩
      · rw [hupe, hup] at hlen
        simp at hlen
      · exact htl
  · intro hT
    have hstep : step s .periodicFire = if s.uploadTimer = true then
        afterRender s { performUploadStart s with timeLeft := 60 } else s := rfl
    rw [hstep, if_pos hT]
    by_cases hbusy : s.isProcessing = true
    · rw [performUploadStart_of_busy hbusy]
      rw [afterRender_of_uDeps_eq
        (show uDeps ({ s with timeLeft := 60 } : AppState) = uDeps s from rfl)]
    · have hbusy' : s.isProcessing = false := by simpa using hbusy
      have hA : (s.isAutoActive && s.isConnected) = true := by
        rw [← h.clock.uT]; exact hT
      have hconn : s.isConnected = true := (Bool.and_eq_true _ _ |>.mp hA).2
      have hpost : ({ performUploadStart s with timeLeft := 60 } : AppState).isProcessing
          = true := by
        show (performUploadStart s).isProcessing = true
        unfold performUploadStart
        rw [if_neg (by simp [hbusy', hconn])]
      have hcd : cDeps ({ performUploadStart s with timeLeft := 60 } : AppState)
          = cDeps s := by
        simp [cDeps, performUploadStart_isAutoActive, performUploadStart_isConnected]
      rw [afterRender_runStart hcd hbusy' hpost]
      split
      · rfl
      · rename_i hA2
        exact absurd hA (by simpa [performUploadStart_isAutoActive,
          performUploadStart_isConnected] using hA2)

theorem C6_countdown_reset_on_fire_witness :
    ((step sConn .manualTrigger).uploads.length = sConn.uploads.length + 1 →
      (step sConn .manualTrigger).timeLeft = 60)
    ∧ (sConn.uploadTimer = true → (step sConn .periodicFire).timeLeft = 60) :=
  C6_countdown_reset_on_fire sConn_reachable trivial

/-- C9: the record store is append-only and newest-first: across any step,
the old id sequence is a suffix of the new one (no deletion, no reordering),
the length grows by at most one, ids stay pairwise distinct, and every
record other than the one owned by the active run is carried over entirely
unchanged. -/
theorem C9_store_append_only_frame {s : AppState} (hs : Reachable s) {e : Event}
    (hv : e.valid) :
    (s.uploads.map (·.id)) <:+ ((step s e).uploads.map (·.id))
    ∧ ((step s e).uploads.length = s.uploads.length
        ∨ (step s e).uploads.length = s.uploads.length + 1)
    ∧ ((step s e).uploads.map (·.id)).Nodup
    ∧ (∀ u ∈ s.uploads, (∀ rs, s.run = some rs → u.id ≠ rs.recordId)
        → u ∈ (step s e).uploads) := by
  have h := reachable_sysInv hs
  have h2 := reachable_sysInv (Reachable.step hs hv)
  have hnodup : ((step s e).uploads.map (·.id)).Nodup := by
    rw [h2.store.ids]
    exact List.nodup_reverse.mpr (List.nodup_range _)
  rcases step_shape h e with hsh | ⟨hup, -, -⟩ | ⟨rs, u, tl, v, hr, hup, hid, -, hvid, hsh⟩
  · refine ⟨?_, ?_, hnodup, ?_⟩
    · rw [hsh]
    · rw [hsh]
      exact Or.inl rfl
    · intro w hw _
      rw [hsh]
      exact hw
  · refine ⟨?_, ?_, hnodup, ?_⟩
    · rw [hup, List.map_cons]
      exact List.suffix_cons _ _
    · rw [hup]
      exact Or.inr (by simp)
    · intro w hw _
      rw [hup]
      exact List.mem_cons_of_mem _ hw
  · have hmap : (v :: tl).map (·.id) = s.uploads.map (·.id) := by
      rw [hup]
      simp [hvid]
    have hmemframe : ∀ w ∈ s.uploads, (∀ rs', s.run = some rs' → w.id ≠ rs'.recordId)
        → w ∈ v :: tl := by
      intro w hw hwne
      rw [hup] at hw
      rcases List.mem_cons.mp hw with h1 | h1
      · exact absurd (h1 ▸ hid) (hwne rs hr)
      · exact List.mem_cons_of_mem _ h1
    rcases hsh with hupe | ⟨hupe, -, -⟩
    · refine ⟨?_, ?_, hnodup, ?_⟩
      · rw [hupe, hmap]
      · rw [hupe, hup]
        exact Or.inl (by simp)
      · intro w hw hwne
        rw [hupe]
        exact hmemframe w hw hwne
    · refine ⟨?_, ?_, hnodup, ?_⟩
      · rw [hupe, List.map_cons, ← hmap]
        exact List.suffix_cons _ _
      · rw [hupe, hup]
        exact Or.inr (by simp)
      · intro w hw hwne
        rw [hupe]
        exact List.mem_cons_of_mem _ (hmemframe w hw hwne)

theorem C9_store_append_only_frame_witness :
    (sConn.uploads.map (·.id)) <:+ ((step sConn .manualTrigger).uploads.map (·.id))
    ∧ ((step sConn .manualTrigger).uploads.length = sConn.uploads.length
        ∨ (step sConn .manualTrigger).uploads.length = sConn.uploads.length + 1)
    ∧ ((step sConn .manualTrigger).uploads.map (·.id)).Nodup
    ∧ (∀ u ∈ sConn.uploads, (∀ rs, sConn.run = some rs → u.id ≠ rs.recordId)
        → u ∈ (step sConn .manualTrigger).uploads) :=
  C9_store_append_only_frame sConn_reachable trivial

theorem statusStep_refl (a : Status) : statusStep a a := Or.inl (Or.inl rfl)

theorem find?_id_cons_pos {u : UploadRecord} {l : List UploadRecord} {i : Nat}
    (h : u.id = i) : (u :: l).find? (fun w => w.id == i) = some u :=
  List.find?_cons_of_pos _ (by simp [h])

theorem find?_id_cons_neg {u : UploadRecord} {l : List UploadRecord} {i : Nat}
    (h : ¬(u.id = i)) :
    (u :: l).find? (fun w => w.id == i) = l.find? (fun w => w.id == i) :=
  List.find?_cons_of_neg _ (by simp [h])

theorem recordStatus_none_of_ge {s : AppState} (h : SysInv s) {i : Nat}
    (hge : s.nextId ≤ i) : recordStatus s i = none := by
  have hlt := id_lt_of_map_id_range s.uploads s.nextId h.store.ids
  unfold recordStatus recordView
  rw [List.find?_eq_none.mpr]
  · rfl
  · intro u hu
    have := hlt u hu
    simp only [beq_iff_eq]
    omega

/-- C3 (amended): per-record status evolution.  Every status change follows
pending → processing → uploaded, or — when the provider call fails before
the record ever enters processing — pending → failed directly; status never
regresses, a record always appears with status pending, and the terminal
statuses uploaded and failed are absorbing (all encoded in `statusStep`). -/
theorem C3_status_monotonic_amended {s : AppState} (hs : Reachable s) {e : Event}
    (hv : e.valid) (i : Nat) :
    (∀ a, recordStatus s i = some a →
      ∃ b, recordStatus (step s e) i = some b ∧ statusStep a b)
    ∧ (recordStatus s i = none →
      ∀ b, recordStatus (step s e) i = some b → b = .pending) := by
  have h := reachable_sysInv hs
  rcases step_shape h e with hsh | ⟨hup, -, -⟩ | ⟨rs, u, tl, v, hr, hup, hid, hss, hvid, hsh⟩
  · have heq : recordStatus (step s e) i = recordStatus s i := by
      unfold recordStatus recordView
      rw [hsh]
    constructor
    · intro a ha
      exact ⟨a, heq.trans ha, statusStep_refl a⟩
    · intro hn b hb
      rw [heq, hn] at hb
      cases hb
  · by_cases hin : s.nextId = i
    · have hold : recordStatus s i = none := recordStatus_none_of_ge h (le_of_eq hin)
      have hnew : recordStatus (step s e) i = some .pending := by
        unfold recordStatus recordView
        rw [hup, find?_id_cons_pos (show (initialRecord s.nextId s.format).id = i from hin)]
        rfl
      constructor
      · intro a ha
        rw [hold] at ha
        cases ha
      · intro _ b hb
        rw [hnew] at hb
        exact (Option.some.inj hb).symm
    · have heq : recordStatus (step s e) i = recordStatus s i := by
        unfold recordStatus recordView
        rw [hup, find?_id_cons_neg (show ¬((initialRecord s.nextId s.format).id = i) from hin)]
      constructor
      · intro a ha
        exact ⟨a, heq.trans ha, statusStep_refl a⟩
      · intro hn b hb
        rw [heq, hn] at hb
        cases hb
  · -- point update of the active record, possibly with a refire prepend
    obtain ⟨u', tl', hup', hid', hphi', hterm', hne', hproc', hnext'⟩ := h.store.run_shape hr
    rw [hup] at hup'
    obtain ⟨hu'eq, htl'eq⟩ : u = u' ∧ tl = tl' :=
      ⟨(List.cons.inj hup').1, (List.cons.inj hup').2⟩
    subst hu'eq
    subst htl'eq
    have hlt := id_lt_of_map_id_range s.uploads s.nextId h.store.ids
    have hfind : ∀ l : List UploadRecord, l = v :: tl ∨ l = initialRecord s.nextId s.format :: v :: tl →
        (u.id = i → l.find? (fun w => w.id == i) = some v)
        ∧ (¬(u.id = i) → ¬(s.nextId = i) →
            l.find? (fun w => w.id == i) = tl.find? (fun w => w.id == i)) := by
      intro l hl
      have hune : u.id ≠ s.nextId := by omega
      constructor
      · intro hiu
        have hinit_ne : ¬((initialRecord s.nextId s.format).id = i) := by
          show ¬(s.nextId = i)
          omega
        rcases hl with hl | hl <;> rw [hl]
        · exact find?_id_cons_pos (hvid.trans hiu)
        · rw [find?_id_cons_neg hinit_ne]
          exact find?_id_cons_pos (hvid.trans hiu)
      · intro hiu hin
        rcases hl with hl | hl <;> rw [hl]
        · exact find?_id_cons_neg (fun hc => hiu (hvid ▸ hc))
        · rw [find?_id_cons_neg (show ¬((initialRecord s.nextId s.format).id = i) from hin)]
          exact find?_id_cons_neg (fun hc => hiu (hvid ▸ hc))
    have hl : (step s e).uploads = v :: tl
        ∨ (step s e).uploads = initialRecord s.nextId s.format :: v :: tl := by
      rcases hsh with h1 | ⟨h1, -, -⟩
      · exact Or.inl h1
      · exact Or.inr h1
    by_cases hiu : u.id = i
    · have hold : recordStatus s i = some u.status := by
        unfold recordStatus recordView
        rw [hup, find?_id_cons_pos hiu]
        rfl
      have hnew : recordStatus (step s e) i = some v.status := by
        unfold recordStatus recordView
        rw [((hfind _ hl).1 hiu)]
        rfl
      constructor
      · intro a ha
        rw [hold] at ha
        exact ⟨v.status, hnew, (Option.some.inj ha) ▸ hss⟩
      · intro hn
        rw [hold] at hn
        cases hn
    · by_cases hin : s.nextId = i
      · have hold : recordStatus s i = none := recordStatus_none_of_ge h (le_of_eq hin)
        constructor
        · intro a ha
          rw [hold] at ha
          cases ha
        · intro _ b hb
          rcases hl with h1 | h1
          · have : recordStatus (step s e) i = ((tl.find? fun w => w.id == i).map (·.status)) := by
              unfold recordStatus recordView
              rw [h1, find?_id_cons_neg (fun hc => hiu (hvid ▸ hc))]
            rw [this, List.find?_eq_none.mpr] at hb
            · cases hb
            · intro w hw
              have : w.id < s.nextId := hlt w (by rw [hup]; exact List.mem_cons_of_mem _ hw)
              simp only [beq_iff_eq]
              omega
          · have : recordStatus (step s e) i = some .pending := by
              unfold recordStatus recordView
              rw [h1, find?_id_cons_pos (show (initialRecord s.nextId s.format).id = i from hin)]
              rfl
            rw [this] at hb
            exact (Option.some.inj hb).symm
      · have heq : recordStatus (step s e) i
            = (tl.find? (fun w => w.id == i)).map (·.status) := by
          unfold recordStatus recordView
          rw [((hfind _ hl).2 hiu hin)]
        have holdeq : recordStatus s i = (tl.find? (fun w => w.id == i)).map (·.status) := by
          unfold recordStatus recordView
          rw [hup, find?_id_cons_neg hiu]
        constructor
        · intro a ha
          refine ⟨a, ?_, statusStep_refl a⟩
          rw [heq, ← holdeq]
          exact ha
        · intro hn b hb
          rw [heq, ← holdeq, hn] at hb
          cases hb

theorem C3_status_monotonic_amended_witness :
    (∀ a, recordStatus sConn 0 = some a →
      ∃ b, recordStatus (step sConn .manualTrigger) 0 = some b ∧ statusStep a b)
    ∧ (recordStatus sConn 0 = none →
      ∀ b, recordStatus (step sConn .manualTrigger) 0 = some b → b = .pending) :=
  C3_status_monotonic_amended sConn_reachable (show Event.manualTrigger.valid from trivial) 0

/-- C3 (counterexample to the claim as stated): in the reachable state
`sRun` record 0 is pending; delivering the provider failure moves it
directly to failed — a transition the chain
pending → processing → (uploaded | failed) does not contain, since the
record never held status processing. -/
theorem C3_statusStepSpec_counterexample :
    Reachable sRun
    ∧ recordStatus sRun 0 = some .pending
    ∧ recordStatus (step sRun .metadataFail) 0 = some .failed
    ∧ ¬ statusStepSpec .pending .failed :=
  ⟨sRun_reachable, rfl, rfl, by decide⟩

/-- C4: when the metadata provider fails, the catch/finally exit path
(`failPath`) marks the affected record failed while it still sits at
`trend_scouting` and releases the busy guard; the failed record persists in
the observable post-state; and the scheduler is not wedged: outside auto
mode the guard stays released and a manual trigger immediately starts a
fresh run, while in auto mode the effect refire has already started one. -/
theorem C4_failure_release {s : AppState} (hs : Reachable s) {rid : Nat}
    (hr : s.run = some ⟨rid, .awaitMetadata⟩) :
    (failPath s rid).isProcessing = false
    ∧ ((recordView (failPath s rid) rid).map fun u => (u.status, u.stage))
        = some (.failed, .trend_scouting)
    ∧ ((recordView (step s .metadataFail) rid).map fun u => (u.status, u.stage))
        = some (.failed, .trend_scouting)
    ∧ (if s.isAutoActive && s.isConnected then
        (step s .metadataFail).uploads.length = s.uploads.length + 1
        ∧ ((step s .metadataFail).uploads.head?.map (·.status)) = some .pending
      else
        (step s .metadataFail).isProcessing = false
        ∧ (s.isConnected = true →
            (step (step s .metadataFail) .manualTrigger).uploads.length
              = s.uploads.length + 1)) := by
  have h := reachable_sysInv hs
  obtain ⟨u, tl, hup, hid, hphi, hterm, hne, hproc, hnext⟩ := h.store.run_shape hr
  obtain ⟨hstat, hstage⟩ := hphi
  have hid' : u.id = rid := hid
  have hne' : ∀ v ∈ tl, v.id ≠ rid := hne
  have hnext' : rid + 1 = s.nextId := hnext
  have hupd : markFailed s.uploads rid = { u with status := .failed } :: tl := by
    rw [hup]
    exact updateById_cons_head _ hid' hne'
  have hfailid : ({ u with status := Status.failed } : UploadRecord).id = rid := hid'
  have hfp : recordView (failPath s rid) rid = some { u with status := .failed } := by
    unfold recordView
    show (markFailed s.uploads rid).find? (fun w => w.id == rid) = _
    rw [hupd]
    exact find?_id_cons_pos hfailid
  have hstep : step s .metadataFail = afterRender s (failPath s rid) := by
    simp only [step, hr]
  have hcd2 : cDeps (failPath s rid) = cDeps s := rfl
  have hpost2 : (failPath s rid).isProcessing = false := rfl
  have hre := afterRender_runEnd hcd2 hproc hpost2
  have hridne : ¬((initialRecord s.nextId s.format).id = rid) := by
    show ¬(s.nextId = rid)
    omega
  have hpu : s.isConnected = true → (performUploadStart (failPath s rid)).uploads
      = initialRecord s.nextId s.format :: markFailed s.uploads rid := by
    intro hc
    unfold performUploadStart
    rw [if_neg (by simp [failPath, hc])]
    rfl
  refine ⟨rfl, by rw [hfp]; simp [hstage], ?_, ?_⟩
  · rw [hstep, hre]
    split
    · rename_i hA
      have hconn : s.isConnected = true := (Bool.and_eq_true _ _ |>.mp hA).2
      have hview : ({ performUploadStart (failPath s rid) with
          timeLeft := 60, uploadTimer := true } : AppState).uploads.find?
            (fun w => w.id == rid) = some { u with status := .failed } := by
        show (performUploadStart (failPath s rid)).uploads.find? (fun w => w.id == rid) = _
        rw [hpu hconn, find?_id_cons_neg hridne, hupd]
        exact find?_id_cons_pos hfailid
      unfold recordView
      rw [hview]
      simp [hstage]
    · have hview : ({ failPath s rid with uploadTimer := false } : AppState).uploads.find?
          (fun w => w.id == rid) = some { u with status := .failed } := by
        show (markFailed s.uploads rid).find? (fun w => w.id == rid) = _
        rw [hupd]
        exact find?_id_cons_pos hfailid
      unfold recordView
      rw [hview]
      simp [hstage]
  · split
    · rename_i hA
      have hconn : s.isConnected = true := (Bool.and_eq_true _ _ |>.mp hA).2
      rw [hstep, hre, if_pos (show ((failPath s rid).isAutoActive
        && (failPath s rid).isConnected) = true from hA)]
      constructor
      · show (performUploadStart (failPath s rid)).uploads.length = s.uploads.length + 1
        rw [hpu hconn, hupd, hup]
        rfl
      · show ((performUploadStart (failPath s rid)).uploads.head?.map (·.status))
          = some .pending
        rw [hpu hconn]
        rfl
    · rename_i hA
      have hinact : ((failPath s rid).isAutoActive && (failPath s rid).isConnected)
          = false := by
        show (s.isAutoActive && s.isConnected) = false
        simpa using hA
      have ht : step s .metadataFail = { failPath s rid with uploadTimer := false } := by
        rw [hstep, hre, if_neg (by rw [hinact]; simp)]
      constructor
      · rw [ht]
        rfl
      · intro hconn
        have hfired := manualTrigger_fired
          (show (step s .metadataFail).isProcessing = false by rw [ht]; rfl)
          (show (step s .metadataFail).isConnected = true by rw [ht]; exact hconn)
        rw [hfired.1, ht]
        show (markFailed s.uploads rid).length + 1 = s.uploads.length + 1
        rw [hupd, hup]
        rfl

theorem C4_failure_release_witness :
    (failPath sRun 0).isProcessing = false
    ∧ ((recordView (failPath sRun 0) 0).map fun u => (u.status, u.stage))
        = some (.failed, .trend_scouting)
    ∧ ((recordView (step sRun .metadataFail) 0).map fun u => (u.status, u.stage))
        = some (.failed, .trend_scouting)
    ∧ (if sRun.isAutoActive && sRun.isConnected then
        (step sRun .metadataFail).uploads.length = sRun.uploads.length + 1
        ∧ ((step sRun .metadataFail).uploads.head?.map (·.status)) = some .pending
      else
        (step sRun .metadataFail).isProcessing = false
        ∧ (sRun.isConnected = true →
            (step (step sRun .metadataFail) .manualTrigger).uploads.length
              = sRun.uploads.length + 1)) :=
  C4_failure_release sRun_reachable rfl

/-- C10: `handleConnect` has no failure path.  For every email, a connect
attempt that is allowed to start (no other attempt pending) ends — once the
1500 ms simulated latency elapses — with the gate connected, a non-null
channel derived from the email, the connecting flag cleared and the login
modal closed; no `ConnectionError` outcome exists in the code. -/
theorem C10_connect_always_succeeds {s : AppState} (hs : Reachable s)
    (hnc : s.isConnecting = false) (email : String) {r : ℚ}
    (hr0 : 0 ≤ r) (hr1 : r < 1) :
    (step (step s (.connectStart email)) (.connectResolve r)).isConnected = true
    ∧ (step (step s (.connectStart email)) (.connectResolve r)).channel
        = some (mkChannel email r)
    ∧ (step (step s (.connectStart email)) (.connectResolve r)).isConnecting = false
    ∧ (step (step s (.connectStart email)) (.connectResolve r)).showLoginModal = false
    ∧ (mkChannel email r).handle = "@" ++ emailName email := by
  have hs1 : step s (.connectStart email)
      = { s with isConnecting := true, pendingConnect := some email } := by
    have hstep : step s (.connectStart email) = if s.isConnecting = true then s
        else afterRender s { s with isConnecting := true, pendingConnect := some email } :=
      rfl
    rw [hstep, if_neg (by simp [hnc])]
    exact afterRender_of_uDeps_eq rfl
  have hstep2 : step ({ s with isConnecting := true, pendingConnect := some email }
        : AppState) (.connectResolve r)
      = afterRender ({ s with isConnecting := true, pendingConnect := some email }
        : AppState)
        { s with
          channel := some (mkChannel email r)
        , isConnected := true
        , isConnecting := false
        , showLoginModal := false
        , pendingConnect := none } := rfl
  rw [hs1, hstep2]
  refine ⟨?_, ?_, ?_, ?_, rfl⟩
  · rw [afterRender_isConnected]
  · rw [afterRender_channel]
  · rw [afterRender_isConnecting]
  · rw [afterRender_showLoginModal]

theorem C10_connect_always_succeeds_witness :
    (step (step initState (.connectStart "creator@example.com"))
      (.connectResolve (1/2))).isConnected = true
    ∧ (step (step initState (.connectStart "creator@example.com"))
        (.connectResolve (1/2))).channel
        = some (mkChannel "creator@example.com" (1/2))
    ∧ (step (step initState (.connectStart "creator@example.com"))
        (.connectResolve (1/2))).isConnecting = false
    ∧ (step (step initState (.connectStart "creator@example.com"))
        (.connectResolve (1/2))).showLoginModal = false
    ∧ (mkChannel "creator@example.com" (1/2)).handle
        = "@" ++ emailName "creator@example.com" :=
  C10_connect_always_succeeds Reachable.init rfl "creator@example.com"
    (by norm_num) (by norm_num)

theorem afterRender_run_of_uDeps_eq {pre post : AppState}
    (h : uDeps post = uDeps pre) : (afterRender pre post).run = post.run := by
  rw [afterRender_of_uDeps_eq h]

/-- The states of one run after the provider success: `runSeq … k` is the
state after the provider result arrived and `k` of the six 2000 ms stage
delays elapsed. -/
def runSeq (s : AppState) (g : GrowthData) (r1 r2 : ℚ) : Nat → AppState
  | 0 => step s (.metadataOk g)
  | n + 1 => step (runSeq s g r1 r2 n) (.delayElapsed r1 r2)

theorem step_metadataOk_run {s : AppState} {rid : Nat} {g : GrowthData}
    (hr : s.run = some ⟨rid, .awaitMetadata⟩) :
    (step s (.metadataOk g)).run = some ⟨rid, .awaitDelay g 0⟩ := by
  simp only [step, hr]
  exact afterRender_run_of_uDeps_eq rfl

theorem step_delayMid_run {s : AppState} {rid : Nat} {g : GrowthData} {idx : Nat}
    (r1 r2 : ℚ) (hr : s.run = some ⟨rid, .awaitDelay g idx⟩) (hidx : idx + 1 < 6) :
    (step s (.delayElapsed r1 r2)).run = some ⟨rid, .awaitDelay g (idx + 1)⟩ := by
  simp only [step, hr]
  rw [if_pos hidx]
  exact afterRender_run_of_uDeps_eq rfl

theorem recordView_active {t : AppState} (ht : SysInv t) {rs : RunState}
    (hr : t.run = some rs) :
    ∃ u, recordView t rs.recordId = some u ∧ phaseInv rs.phase u := by
  obtain ⟨u, tl, hup, hid, hphi, -⟩ := ht.store.run_shape hr
  refine ⟨u, ?_, hphi⟩
  unfold recordView
  rw [hup]
  exact find?_id_cons_pos hid

/-- The terminal-success step: after the sixth stage delay the active record
is finalized — uploaded at `publishing` with the synthetic metrics and the
replaced thumbnail — and remains observable under its id whether or not the
effect refire starts a new run. -/
theorem step_finalize_view {t : AppState} (ht : SysInv t) {rid : Nat} {g : GrowthData}
    (hr : t.run = some ⟨rid, .awaitDelay g 5⟩) (r1 r2 : ℚ) :
    ∃ u : UploadRecord, recordView (step t (.delayElapsed r1 r2)) rid
        = some { u with
            status := .uploaded
          , stage := .publishing
          , metrics := some (4 + 8 * r1, 70 + 20 * r2)
          , thumbnail := finalThumb rid } := by
  obtain ⟨u, tl, hup, hid, hphi, hterm, hne, hproc, hnext⟩ := ht.store.run_shape hr
  have hid' : u.id = rid := hid
  have hne' : ∀ v ∈ tl, v.id ≠ rid := hne
  have hnext' : rid + 1 = t.nextId := hnext
  have hupd : finalizeRecord t.uploads rid r1 r2
      = { u with
            status := .uploaded
          , stage := .publishing
          , metrics := some (4 + 8 * r1, 70 + 20 * r2)
          , thumbnail := finalThumb rid } :: tl := by
    rw [hup]
    exact updateById_cons_head _ hid' hne'
  have hfinid : ({ u with
      status := Status.uploaded
    , stage := Stage.publishing
    , metrics := some (4 + 8 * r1, 70 + 20 * r2)
    , thumbnail := finalThumb rid } : UploadRecord).id = rid := hid'
  have hstep : step t (.delayElapsed r1 r2)
      = afterRender t { t with
          uploads := finalizeRecord t.uploads rid r1 r2
        , isProcessing := false
        , run := none } := by
    simp only [step, hr]
    rw [if_neg (by norm_num)]
  have hcd2 : cDeps ({ t with uploads := finalizeRecord t.uploads rid r1 r2, isProcessing := false, run := none } : AppState) = cDeps t := rfl
  have hpost2 : ({ t with uploads := finalizeRecord t.uploads rid r1 r2, isProcessing := false, run := none } : AppState).isProcessing = false := rfl
  have hridne : ¬((initialRecord t.nextId t.format).id = rid) := by
    show ¬(t.nextId = rid)
    omega
  refine ⟨u, ?_⟩
  rw [hstep, afterRender_runEnd hcd2 hproc hpost2]
  split
  · rename_i hA
    have hconn : t.isConnected = true := (Bool.and_eq_true _ _ |>.mp hA).2
    have hpu : (performUploadStart ({ t with uploads := finalizeRecord t.uploads rid r1 r2, isProcessing := false, run := none } : AppState)).uploads
        = initialRecord t.nextId t.format :: finalizeRecord t.uploads rid r1 r2 := by
      unfold performUploadStart
      rw [if_neg (by simp [hconn])]
    unfold recordView
    show (performUploadStart ({ t with uploads := finalizeRecord t.uploads rid r1 r2, isProcessing := false, run := none } : AppState)).uploads.find? (fun w => w.id == rid) = _
    rw [hpu, find?_id_cons_neg hridne, hupd]
    exact find?_id_cons_pos hfinid
  · unfold recordView
    show (finalizeRecord t.uploads rid r1 r2).find? (fun w => w.id == rid) = _
    rw [hupd]
    exact find?_id_cons_pos hfinid

/-- C2: after the metadata provider call succeeds, the record advances
through the six remaining stages in the fixed order — strategy_mapping,
script_generation, neural_rendering, voice_synthesis, qc_validation,
publishing — with status processing at every non-terminal stage and the
provider's title/description attached from the first transition on; after
the delay of the publishing stage the record becomes uploaded with two
bounded synthetic metric values and the replaced thumbnail. -/
theorem C2_stage_progression {s : AppState} (hs : Reachable s) {rid : Nat}
    (g : GrowthData) (hr : s.run = some ⟨rid, .awaitMetadata⟩) {r1 r2 : ℚ}
    (hb1 : 0 ≤ r1) (hb2 : r1 < 1) (hb3 : 0 ≤ r2) (hb4 : r2 < 1) :
    ((recordView (runSeq s g r1 r2 0) rid).map fun u => (u.status, u.stage))
        = some (.processing, .strategy_mapping)
    ∧ ((recordView (runSeq s g r1 r2 0) rid).map fun u => (u.title, u.description))
        = some (g.title, g.description)
    ∧ ((recordView (runSeq s g r1 r2 1) rid).map fun u => (u.status, u.stage))
        = some (.processing, .script_generation)
    ∧ ((recordView (runSeq s g r1 r2 2) rid).map fun u => (u.status, u.stage))
        = some (.processing, .neural_rendering)
    ∧ ((recordView (runSeq s g r1 r2 3) rid).map fun u => (u.status, u.stage))
        = some (.processing, .voice_synthesis)
    ∧ ((recordView (runSeq s g r1 r2 4) rid).map fun u => (u.status, u.stage))
        = some (.processing, .qc_validation)
    ∧ ((recordView (runSeq s g r1 r2 5) rid).map fun u => (u.status, u.stage))
        = some (.processing, .publishing)
    ∧ ((recordView (runSeq s g r1 r2 6) rid).map fun u => (u.status, u.stage))
        = some (.uploaded, .publishing)
    ∧ ((recordView (runSeq s g r1 r2 6) rid).map (·.metrics))
        = some (some (4 + 8 * r1, 70 + 20 * r2))
    ∧ ((recordView (runSeq s g r1 r2 6) rid).map (·.thumbnail)) = some (finalThumb rid)
    ∧ (4 ≤ 4 + 8 * r1 ∧ 4 + 8 * r1 < 12 ∧ 70 ≤ 70 + 20 * r2 ∧ 70 + 20 * r2 < 90) := by
  have hvd : (Event.delayElapsed r1 r2).valid := ⟨hb1, hb2, hb3, hb4⟩
  have hs0 : Reachable (runSeq s g r1 r2 0) :=
    Reachable.step hs (show (Event.metadataOk g).valid from trivial)
  have hr0 : (runSeq s g r1 r2 0).run = some ⟨rid, .awaitDelay g 0⟩ :=
    step_metadataOk_run hr
  have hs1 : Reachable (runSeq s g r1 r2 1) := Reachable.step hs0 hvd
  have hr1 : (runSeq s g r1 r2 1).run = some ⟨rid, .awaitDelay g 1⟩ :=
    step_delayMid_run r1 r2 hr0 (by norm_num)
  have hs2 : Reachable (runSeq s g r1 r2 2) := Reachable.step hs1 hvd
  have hr2 : (runSeq s g r1 r2 2).run = some ⟨rid, .awaitDelay g 2⟩ :=
    step_delayMid_run r1 r2 hr1 (by norm_num)
  have hs3 : Reachable (runSeq s g r1 r2 3) := Reachable.step hs2 hvd
  have hr3 : (runSeq s g r1 r2 3).run = some ⟨rid, .awaitDelay g 3⟩ :=
    step_delayMid_run r1 r2 hr2 (by norm_num)
  have hs4 : Reachable (runSeq s g r1 r2 4) := Reachable.step hs3 hvd
  have hr4 : (runSeq s g r1 r2 4).run = some ⟨rid, .awaitDelay g 4⟩ :=
    step_delayMid_run r1 r2 hr3 (by norm_num)
  have hs5 : Reachable (runSeq s g r1 r2 5) := Reachable.step hs4 hvd
  have hr5 : (runSeq s g r1 r2 5).run = some ⟨rid, .awaitDelay g 5⟩ :=
    step_delayMid_run r1 r2 hr4 (by norm_num)
  obtain ⟨u0, hv0, hp0⟩ := recordView_active (reachable_sysInv hs0) hr0
  obtain ⟨-, hst0, hsg0, hti0, hde0, -, -⟩ := hp0
  obtain ⟨u1, hv1, hp1⟩ := recordView_active (reachable_sysInv hs1) hr1
  obtain ⟨-, hst1, hsg1, -, -, -, -⟩ := hp1
  obtain ⟨u2, hv2, hp2⟩ := recordView_active (reachable_sysInv hs2) hr2
  obtain ⟨-, hst2, hsg2, -, -, -, -⟩ := hp2
  obtain ⟨u3, hv3, hp3⟩ := recordView_active (reachable_sysInv hs3) hr3
  obtain ⟨-, hst3, hsg3, -, -, -, -⟩ := hp3
  obtain ⟨u4, hv4, hp4⟩ := recordView_active (reachable_sysInv hs4) hr4
  obtain ⟨-, hst4, hsg4, -, -, -, -⟩ := hp4
  obtain ⟨u5, hv5, hp5⟩ := recordView_active (reachable_sysInv hs5) hr5
  obtain ⟨-, hst5, hsg5, -, -, -, -⟩ := hp5
  obtain ⟨u6, hv6⟩ := step_finalize_view (reachable_sysInv hs5) hr5 r1 r2
  have hv0' : recordView (runSeq s g r1 r2 0) rid = some u0 := hv0
  have hv1' : recordView (runSeq s g r1 r2 1) rid = some u1 := hv1
  have hv2' : recordView (runSeq s g r1 r2 2) rid = some u2 := hv2
  have hv3' : recordView (runSeq s g r1 r2 3) rid = some u3 := hv3
  have hv4' : recordView (runSeq s g r1 r2 4) rid = some u4 := hv4
  have hv5' : recordView (runSeq s g r1 r2 5) rid = some u5 := hv5
  have hv6' : recordView (runSeq s g r1 r2 6) rid = some { u6 with
      status := .uploaded
    , stage := .publishing
    , metrics := some (4 + 8 * r1, 70 + 20 * r2)
    , thumbnail := finalThumb rid } := hv6
  refine ⟨?_, ?_, ?_, ?_, ?_, ?_, ?_, ?_, ?_, ?_, ?_, ?_, ?_, ?_⟩
  · rw [hv0']; simp [hst0, hsg0, stageAt, stages]
  · rw [hv0']; simp [hti0, hde0]
  · rw [hv1']; simp [hst1, hsg1, stageAt, stages]
  · rw [hv2']; simp [hst2, hsg2, stageAt, stages]
  · rw [hv3']; simp [hst3, hsg3, stageAt, stages]
  · rw [hv4']; simp [hst4, hsg4, stageAt, stages]
  · rw [hv5']; simp [hst5, hsg5, stageAt, stages]
  · rw [hv6']; simp
  · rw [hv6']; simp
  · rw [hv6']; simp
  · linarith
  · linarith
  · linarith
  · linarith

theorem C2_stage_progression_witness :
    ((recordView (runSeq sRun gDemo 0 (1/2) 0) 0).map fun u => (u.status, u.stage))
        = some (.processing, .strategy_mapping)
    ∧ ((recordView (runSeq sRun gDemo 0 (1/2) 0) 0).map fun u => (u.title, u.description))
        = some (gDemo.title, gDemo.description)
    ∧ ((recordView (runSeq sRun gDemo 0 (1/2) 1) 0).map fun u => (u.status, u.stage))
        = some (.processing, .script_generation)
    ∧ ((recordView (runSeq sRun gDemo 0 (1/2) 2) 0).map fun u => (u.status, u.stage))
        = some (.processing, .neural_rendering)
    ∧ ((recordView (runSeq sRun gDemo 0 (1/2) 3) 0).map fun u => (u.status, u.stage))
        = some (.processing, .voice_synthesis)
    ∧ ((recordView (runSeq sRun gDemo 0 (1/2) 4) 0).map fun u => (u.status, u.stage))
        = some (.processing, .qc_validation)
    ∧ ((recordView (runSeq sRun gDemo 0 (1/2) 5) 0).map fun u => (u.status, u.stage))
        = some (.processing, .publishing)
    ∧ ((recordView (runSeq sRun gDemo 0 (1/2) 6) 0).map fun u => (u.status, u.stage))
        = some (.uploaded, .publishing)
    ∧ ((recordView (runSeq sRun gDemo 0 (1/2) 6) 0).map (·.metrics))
        = some (some (4 + 8 * 0, 70 + 20 * (1/2)))
    ∧ ((recordView (runSeq sRun gDemo 0 (1/2) 6) 0).map (·.thumbnail)) = some (finalThumb 0)
    ∧ (4 ≤ 4 + 8 * (0 : ℚ) ∧ 4 + 8 * (0 : ℚ) < 12
        ∧ 70 ≤ 70 + 20 * ((1/2) : ℚ) ∧ 70 + 20 * ((1/2) : ℚ) < 90) :=
  C2_stage_progression sRun_reachable gDemo rfl
    (by norm_num) (by norm_num) (by norm_num) (by norm_num)
